import Mathlib

/-!
Verification development for the azurajs routing and dispatch core.

The TypeScript sources embedded here:
* `src/package/src/infra/Router.ts` — the trie router (`Node`, `Router.add`,
  `Router.find`, `Router.listRoutes`);
* `src/package/src/infra/utils/RequestHandler.ts` — the handler adapter
  (`adaptRequestHandler`) and the `AzuraClient.handle` / `AzuraClient.fetch`
  dispatch pipelines (chain construction, the `next` loop, the error handler,
  and per-transport body decoding);
* `src/package/azurajs/src/utils/Parser.ts` — `parseQS`.

JavaScript strings are Lean `String`s; `Map` and plain-object records are
association lists with JS `Map.set` semantics (in-place update preserving
insertion order, append when absent); exceptions are `Except`/`Option`;
`JSON.parse` and `decodeURIComponent` are abstract fallible parameters.
-/

/-- JS `s.split(sep)` for a one-character separator, on the character list. -/
def splitL (sep : Char) : List Char → List (List Char)
  | [] => [[]]
  | c :: cs =>
    match splitL sep cs with
    | [] => [[c]]
    | h :: t => if c = sep then [] :: h :: t else (c :: h) :: t

/-- JS `s.split(sep)` for a one-character separator. -/
def splitChar (sep : Char) (s : String) : List String :=
  (splitL sep s.data).map String.mk

/-- JS `s.split(sep)[0]`: the text before the first occurrence of `sep`. -/
def beforeChar (sep : Char) (s : String) : String :=
  String.mk (s.data.takeWhile (fun c => c ≠ sep))

/-- JS `seg.startsWith(":")`. -/
def startsColon (s : String) : Bool :=
  match s.data with
  | [] => false
  | c :: _ => c = ':'

/-- JS `seg.slice(1)`. -/
def dropFirst (s : String) : String :=
  String.mk s.data.tail

/-- JS `String.prototype.toUpperCase` on one ASCII character. -/
def upChar (c : Char) : Char :=
  if 97 ≤ c.toNat ∧ c.toNat ≤ 122 then Char.ofNat (c.toNat - 32) else c

/-- JS `method.toUpperCase()` (ASCII range, as used for HTTP method names). -/
def upStr (s : String) : String :=
  String.mk (s.data.map upChar)

/-- Is `pre` a prefix of `l`? (helper for JS `includes`). -/
def isPrefixL : List Char → List Char → Bool
  | [], _ => true
  | _ :: _, [] => false
  | a :: as, b :: bs => a = b && isPrefixL as bs

/-- Does `sub` occur inside `l`? (helper for JS `includes`). -/
def containsL (sub : List Char) : List Char → Bool
  | [] => isPrefixL sub []
  | c :: rest => isPrefixL sub (c :: rest) || containsL sub rest

/-- JS `s.includes(sub)`. -/
def containsStr (s sub : String) : Bool :=
  containsL sub.data s.data

/-- JS `s.startsWith(pre)`, as used by the proxy loop
`rawReq.path.startsWith(proxy.path)`. -/
def startsWithStr (s pre : String) : Bool :=
  isPrefixL pre.data s.data

/-- JS `map.get(k)` / property read on a record. -/
def getA {α : Type} : List (String × α) → String → Option α
  | [], _ => none
  | (k0, v) :: rest, k => if k0 = k then some v else getA rest k

/-- JS `map.set(k, v)` / property assignment: update in place preserving
insertion order, append when the key is absent. -/
def setA {α : Type} : List (String × α) → String → α → List (String × α)
  | [], k, v => [(k, v)]
  | (k0, v0) :: rest, k, v =>
    if k0 = k then (k, v) :: rest else (k0, v0) :: setA rest k v

/-- Model of `HttpError` from `src/package/src/infra/utils/HttpError.ts`: carries a
status, a message and an optional structured payload. -/
structure HttpError where
  status : Nat
  message : String
  payload : Option String
deriving DecidableEq, Repr

/-- A routing-trie node (`Node` from `src/infra/utils/route/Node.ts`):
`children` maps a path segment (or the sentinel key `":"` for the parameter
child) to a child node; `handlers` maps an uppercased HTTP method to the
handler chain registered at this node; `paramName`/`isParam` describe the
parameter child. `H` abstracts the handler function values. -/
inductive Node (H : Type) where
  | mk (children : List (String × Node H)) (handlers : List (String × List H))
      (paramName : Option String) (isParam : Bool)

/-- The `children` field of a node. -/
def Node.children {H : Type} : Node H → List (String × Node H)
  | .mk c _ _ _ => c

/-- The `handlers` field of a node. -/
def Node.handlers {H : Type} : Node H → List (String × List H)
  | .mk _ h _ _ => h

/-- The `paramName` field of a node. -/
def Node.paramName {H : Type} : Node H → Option String
  | .mk _ _ p _ => p

/-- The `isParam` field of a node. -/
def Node.isParam {H : Type} : Node H → Bool
  | .mk _ _ _ i => i

/-- JS `new Node()`. -/
def Node.empty {H : Type} : Node H := .mk [] [] none false

/-- The `MatchResult` returned by `Router.find`. -/
structure MatchResult (H : Type) where
  handlers : List H
  params : List (String × String)
deriving DecidableEq, Repr

/-- Decidable equality on `Except`, so concrete router results can be checked
by `decide`. -/
instance {ε α : Type} [DecidableEq ε] [DecidableEq α] : DecidableEq (Except ε α) :=
  fun x y =>
    match x, y with
    | .ok a, .ok b =>
      if h : a = b then isTrue (by rw [h])
      else isFalse (by intro hc; injection hc; contradiction)
    | .error a, .error b =>
      if h : a = b then isTrue (by rw [h])
      else isFalse (by intro hc; injection hc; contradiction)
    | .ok a, .error b => isFalse (by intro hc; exact Except.noConfusion hc)
    | .error a, .ok b => isFalse (by intro hc; exact Except.noConfusion hc)

namespace Router

/-- Path segmentation used by `Router.add`:
`path.split("/").filter(Boolean)`. -/
def addSegments (path : String) : List String :=
  (splitChar '/' path).filter (fun s => s ≠ "")

/-- The segment walk of `Router.add` (from `src/package/src/infra/Router.ts`):
for a `:`-prefixed segment, reuse the existing parameter child keyed `":"`
(keeping its original `paramName`; the source only logs a debug warning on a
name mismatch) or create it with `paramName = seg.slice(1)`; for a literal
segment, reuse or create the child keyed by the exact text. At the terminal
node, `node.handlers.set(method.toUpperCase(), handlers)`. -/
def addSegs {H : Type} (method : String) (hs : List H) :
    List String → Node H → Node H
  | [], n => .mk n.children (setA n.handlers (upStr method) hs) n.paramName n.isParam
  | seg :: rest, n =>
    if startsColon seg then
      let child :=
        match getA n.children ":" with
        | some c => c
        | none => Node.mk [] [] (some (dropFirst seg)) true
      Node.mk (setA n.children ":" (addSegs method hs rest child))
        n.handlers n.paramName n.isParam
    else
      let child :=
        match getA n.children seg with
        | some c => c
        | none => Node.empty
      Node.mk (setA n.children seg (addSegs method hs rest child))
        n.handlers n.paramName n.isParam

/-- Model of `Router.add(method, path, ...handlers)`. -/
def add {H : Type} (method path : String) (hs : List H) (root : Node H) : Node H :=
  addSegs method hs (addSegments path) root

/-- Path preparation of `Router.find`:
`const cleanPath = path.split("?")[0] || "/"`. -/
def cleanPath (path : String) : String :=
  let c := beforeChar '?' path
  if c = "" then "/" else c

/-- Segment list of `Router.find`:
`cleanPath === "/" ? [] : cleanPath.split("/").filter(Boolean)`. -/
def findSegments (path : String) : List String :=
  let c := cleanPath path
  if c = "/" then [] else (splitChar '/' c).filter (fun s => s ≠ "")

/-- The matching loop of `Router.find`: prefer the literal child keyed by the
exact segment text; otherwise fall back to the parameter child keyed `":"`,
recording `params[paramName] = seg` when `paramName` is truthy (JS: defined
and nonempty); otherwise throw `HttpError(404, "Route not found")`. After all
segments, look up the chain for the uppercased method or throw the same
error. The `seg = ""` guard mirrors `if (!seg) continue`. -/
def findSegs {H : Type} (method : String) :
    List String → Node H → List (String × String) →
    Except HttpError (MatchResult H)
  | [], n, params =>
    match getA n.handlers (upStr method) with
    | some hs => .ok ⟨hs, params⟩
    | none => .error ⟨404, "Route not found", none⟩
  | seg :: rest, n, params =>
    if seg = "" then findSegs method rest n params
    else
      match getA n.children seg with
      | some c => findSegs method rest c params
      | none =>
        match getA n.children ":" with
        | some c =>
          let params1 :=
            match c.paramName with
            | some pn => if pn = "" then params else setA params pn seg
            | none => params
          findSegs method rest c params1
        | none => .error ⟨404, "Route not found", none⟩

/-- Model of `Router.find(method, path)`. -/
def find {H : Type} (root : Node H) (method path : String) :
    Except HttpError (MatchResult H) :=
  findSegs method (findSegments path) root []

end Router

namespace Router

/-- Rendering of one trie edge in `Router.listRoutes`:
`segment === ":" && child.paramName ? ":" + child.paramName : segment`
(JS truthiness: an empty `paramName` renders the raw `":"` key). -/
def renderSeg {H : Type} (k : String) (c : Node H) : String :=
  if k = ":" then
    match c.paramName with
    | some pn => if pn = "" then k else ":" ++ pn
    | none => k
  else k

/-- The depth-first traversal of `Router.listRoutes`: at every node holding
handlers, emit one `(method, path || "/")` pair per method key, then recurse
into each child with `path + "/" + renderedSegment`. -/
def traverseRoutes {H : Type} : Node H → String → List (String × String)
  | Node.mk ch hs _ _, path =>
    hs.map (fun p => (p.1, if path = "" then "/" else path)) ++
      (ch.attach.map (fun x =>
        traverseRoutes x.1.2 (path ++ "/" ++ renderSeg x.1.1 x.1.2))).flatten
termination_by n _ => sizeOf n
decreasing_by
  rcases x with ⟨⟨a, b⟩, hx⟩
  have h1 : sizeOf (a, b) < sizeOf ch := List.sizeOf_lt_of_mem hx
  simp only [Node.mk.sizeOf_spec, Prod.mk.sizeOf_spec] at h1 ⊢
  omega

/-- Model of `Router.listRoutes()`. -/
def listRoutes {H : Type} (root : Node H) : List (String × String) :=
  traverseRoutes root ""

end Router

/-- A value stored in the record returned by `parseQS`
(`src/package/azurajs/src/utils/Parser.ts`): a plain string, or an array
once a key repeats. -/
inductive QSVal where
  | one (s : String)
  | many (l : List String)
deriving DecidableEq, Repr

/-- JS `p.indexOf("=")` split: `none` when `=` is absent, otherwise the text
before the first `=` and the text after it. -/
def splitEq (p : String) : Option (String × String) :=
  if ('=' ∈ p.data) then
    some (String.mk (p.data.takeWhile (fun c => c ≠ '=')),
      String.mk ((p.data.dropWhile (fun c => c ≠ '=')).tail))
  else none

/-- The accumulation loop of `parseQS`. `dec` abstracts
`decodeURIComponent`; a `none` from `dec` is the `URIError` it can throw,
which aborts the whole parse (the callers catch it). -/
def parseQSAux (dec : String → Option String) :
    List String → List (String × QSVal) → Option (List (String × QSVal))
  | [], out => some out
  | p :: rest, out =>
    if p = "" then parseQSAux dec rest out
    else
      match splitEq p with
      | none => do
        let k ← dec p
        parseQSAux dec rest (setA out k (.one ""))
      | some (ks, vs) => do
        let k ← dec ks
        let v ← dec vs
        let out1 :=
          match getA out k with
          | some (.many l) => setA out k (.many (l ++ [v]))
          | some (.one s) => setA out k (.many [s, v])
          | none => setA out k (.one v)
        parseQSAux dec rest out1

/-- Model of `parseQS(qs)` from `src/package/azurajs/src/utils/Parser.ts`. -/
def parseQS (dec : String → Option String) (qs : String) :
    Option (List (String × QSVal)) :=
  if qs = "" then some [] else parseQSAux dec (splitChar '&' qs) []

/-- The per-key flattening both transports apply to a `parseQS` result:
`b[k] = Array.isArray(v) ? v[0] || "" : v || ""`. -/
def flattenQS (l : List (String × QSVal)) : List (String × String) :=
  l.map (fun p =>
    (p.1,
      match p.2 with
      | .one s => s
      | .many vs => match vs.head? with | some h => h | none => ""))

/-- A request body value after decoding. `J` abstracts parsed JSON values;
`.obj` is a string-keyed record (the form-parse result, or the empty object
`\x7b\x7d` used for recovery); `.str` is a raw text body. -/
inductive BodyVal (J : Type) where
  | parsed (j : J)
  | obj (kvs : List (String × String))
  | str (s : String)
deriving DecidableEq, Repr

/-- Body decoding of `AzuraClient.handle` (Node transport) for a mutating
request: with a Content-Type containing `application/json`,
`JSON.parse(buf || "\x7b\x7d")`; any other Content-Type goes through
`parseQS(buf || "")`; any exception is caught and the body defaults to the
empty object. `pj` abstracts `JSON.parse`. -/
def nodeBody {J : Type} (pj : String → Option J) (dec : String → Option String)
    (ct buf : String) : BodyVal J :=
  if containsStr ct "application/json" then
    match pj (if buf = "" then "\x7b\x7d" else buf) with
    | some j => .parsed j
    | none => .obj []
  else
    match parseQS dec buf with
    | some kvs => .obj (flattenQS kvs)
    | none => .obj []

/-- Body decoding of `AzuraClient.fetch` (Web transport) for a mutating
request: `application/json` → `request.json()` (a rejected parse is caught,
body defaults to the empty object); `application/x-www-form-urlencoded` →
`parseQS` of the text; any other Content-Type → the raw text from
`request.text()`. -/
def fetchBody {J : Type} (pj : String → Option J) (dec : String → Option String)
    (ct bodyText : String) : BodyVal J :=
  if containsStr ct "application/json" then
    match pj bodyText with
    | some j => .parsed j
    | none => .obj []
  else if containsStr ct "application/x-www-form-urlencoded" then
    match parseQS dec bodyText with
    | some kvs => .obj (flattenQS kvs)
    | none => .obj []
  else .str bodyText

/-- An error value reaching the dispatch error handler: either an
`HttpError` instance (the `err instanceof HttpError` branch) or any other
thrown value, of which only the `message` matters. -/
inductive Err where
  | http (e : HttpError)
  | plain (message : String)
deriving DecidableEq, Repr

/-- The status both error handlers set:
`err instanceof HttpError ? err.status : 500`. -/
def errStatus : Err → Nat
  | .http e => e.status
  | .plain _ => 500

/-- The shape of the JSON error body both error handlers write: a structured
payload verbatim, or an object with a single `error` message field. -/
inductive ErrBody where
  | payload (s : String)
  | errObj (message : String)
deriving DecidableEq, Repr

/-- The body both error handlers write:
`err.payload ?? \x7b error: err.message || "Internal Server Error" \x7d` for an
`HttpError`, `\x7b error: err?.message || "Internal Server Error" \x7d`
otherwise. -/
def errBody : Err → ErrBody
  | .http e =>
    match e.payload with
    | some p => .payload p
    | none => .errObj (if e.message = "" then "Internal Server Error" else e.message)
  | .plain m => .errObj (if m = "" then "Internal Server Error" else m)

/-- The observable behavior of one adapted chain entry towards the dispatch
`next` loop: complete after invoking the continuation with no error
(`callNext`), invoke it with an error (`callNextErr`), throw or reject
(`throwErr`), or complete without invoking it (`stop`, e.g. after writing
the response). -/
inductive MwAction where
  | callNext
  | callNextErr (e : Err)
  | throwErr (e : Err)
  | stop
deriving DecidableEq, Repr

/-- The final state of one dispatched request: completed with whatever the
handlers wrote, or finalized by the error handler with a status and an error
body. -/
inductive Outcome where
  | done
  | errored (status : Nat) (body : ErrBody)
deriving DecidableEq, Repr

/-- The `next` loop of `AzuraClient.handle` (lines 646-664 of
`RequestHandler.ts`): an index cursor over the chain; `next(err)` routes to
the error handler; otherwise the entry at the cursor runs (its thrown errors
are caught into the error handler) and the chain advances only when that
entry invokes the continuation without error. Returns the indices executed,
in order, and the outcome. -/
def runFromNode : Nat → List MwAction → List Nat × Outcome
  | _, [] => ([], .done)
  | i, a :: rest =>
    match a with
    | .stop => ([i], .done)
    | .callNext =>
      let r := runFromNode (i + 1) rest
      (i :: r.1, r.2)
    | .callNextErr e => ([i], .errored (errStatus e) (errBody e))
    | .throwErr e => ([i], .errored (errStatus e) (errBody e))

/-- The initial `await next()` over the whole chain in `AzuraClient.handle`. -/
def runChainNode (chain : List MwAction) : List Nat × Outcome :=
  runFromNode 0 chain

/-- The `next` loop of `AzuraClient.fetch` (lines 415-434 of
`RequestHandler.ts`), textually the same algorithm as the one in `handle`. -/
def runFromFetch : Nat → List MwAction → List Nat × Outcome
  | _, [] => ([], .done)
  | i, a :: rest =>
    match a with
    | .stop => ([i], .done)
    | .callNext =>
      let r := runFromFetch (i + 1) rest
      (i :: r.1, r.2)
    | .callNextErr e => ([i], .errored (errStatus e) (errBody e))
    | .throwErr e => ([i], .errored (errStatus e) (errBody e))

/-- The initial `await next()` over the whole chain in `AzuraClient.fetch`. -/
def runChainFetch (chain : List MwAction) : List Nat × Outcome :=
  runFromFetch 0 chain

/-- The mutating-method test `["POST", "PUT", "PATCH"].includes(method.toUpperCase())`. -/
def isMutating (method : String) : Bool :=
  (["POST", "PUT", "PATCH"] : List String).contains (upStr method)

/-- What one dispatched request produced: the decoded body, the route
resolution outcome (`params` and the matched handler chain, `none` when
routing failed or never ran), the chain indices that executed, the final
outcome, and whether the request was short-circuited into the proxy branch
(always `false` on the Web transport, which has no proxy handling). -/
structure DispatchResult (J : Type) where
  body : BodyVal J
  routed : Option (List (String × String) × List MwAction)
  executed : List Nat
  outcome : Outcome
  proxied : Bool
deriving DecidableEq, Repr

/-- Model of `AzuraClient.handle` (Node transport): compute
`rawReq.path = url.split("?")[0] || "/"` and decode the body for mutating
methods; then the proxy loop (`RequestHandler.ts` lines 598-638) takes the
first registered proxy whose path is a prefix of the request path and
short-circuits routing entirely: the global middlewares run through
`middlewareNext` (an error sets `middlewareError` — the `errored` outcome —
and skips the proxy handler), and otherwise the proxy handler runs raw as
`handler(rawReq, rawRes, middlewareNext)`, so its `next` call resumes the
middleware cursor where it stopped and its error or thrown value reaches the
error handler. Only when no proxy matches is the route resolved via
`this.router.find(method || "GET", path)` (a routing error goes to the
error handler), the chain built as global middlewares followed by the
matched handlers, and driven through the `next` loop. -/
def nodeDispatch {J : Type} (pj : String → Option J) (dec : String → Option String)
    (router : Node MwAction) (proxies : List (String × MwAction))
    (mws : List MwAction) (method url ct bodyText : String) : DispatchResult J :=
  let path := (fun c => if c = "" then "/" else c) (beforeChar '?' url)
  let body := if isMutating method then nodeBody pj dec ct bodyText else BodyVal.obj []
  match proxies.find? (fun pr => startsWithStr path pr.1) with
  | some pr =>
    let r := runChainNode mws
    match r.2 with
    | .errored st b => ⟨body, none, r.1, .errored st b, true⟩
    | .done =>
      match pr.2 with
      | .stop => ⟨body, none, r.1, .done, true⟩
      | .callNext =>
        let r2 := runFromNode r.1.length (mws.drop r.1.length)
        ⟨body, none, r.1 ++ r2.1, r2.2, true⟩
      | .callNextErr e => ⟨body, none, r.1, .errored (errStatus e) (errBody e), true⟩
      | .throwErr e => ⟨body, none, r.1, .errored (errStatus e) (errBody e), true⟩
  | none =>
    match Router.find router (if method = "" then "GET" else method) path with
    | .error e => ⟨body, none, [], .errored e.status (errBody (.http e)), false⟩
    | .ok res =>
      let r := runChainNode (mws ++ res.handlers)
      ⟨body, some (res.params, res.handlers), r.1, r.2, false⟩

/-- Model of `AzuraClient.fetch` (Web transport): `urlPath` is the URL
pathname, the body is decoded per Content-Type for mutating methods, the
route is resolved via `this.router.find(request.method, urlPath || "/")`,
and the same chain construction and `next` loop run; `fetch` has no proxy
handling. -/
def fetchDispatch {J : Type} (pj : String → Option J) (dec : String → Option String)
    (router : Node MwAction) (mws : List MwAction)
    (method pathname ct bodyText : String) : DispatchResult J :=
  let urlTarget := if pathname = "" then "/" else pathname
  let body := if isMutating method then fetchBody pj dec ct bodyText else BodyVal.obj []
  match Router.find router method urlTarget with
  | .error e => ⟨body, none, [], .errored e.status (errBody (.http e)), false⟩
  | .ok res =>
    let r := runChainFetch (mws ++ res.handlers)
    ⟨body, some (res.params, res.handlers), r.1, r.2, false⟩

/-- The context object the dispatch pipeline passes to every adapted chain
entry: `\x7b request, response, req, res, next \x7d` with `req`/`res`
aliasing `request`/`response`. -/
structure DispatchCtx (R S N : Type) where
  request : R
  response : S
  req : R
  res : S
  next : N
deriving DecidableEq, Repr

/-- The object literal built at the dispatch call sites:
`request: rawReq, response: rawRes, req: rawReq, res: rawRes, next`. -/
def mkDispatchCtx {R S N : Type} (r : R) (s : S) (n : N) : DispatchCtx R S N :=
  ⟨r, s, r, s, n⟩

/-- How `adaptRequestHandler` invokes the wrapped function: the arity-3
callback idiom receives `(ctx.request, ctx.response, cb)` with a manufactured
promise-resolving callback; the arity-1 idiom receives
`\x7b req: ctx.request, res: ctx.response, next: ctx.next \x7d` awaited
directly; the bare idiom receives the full context object as-is, awaited
directly. -/
inductive AdapterCall (R S N : Type) where
  | callbackStyle (req : R) (res : S)
  | contextStyle (req : R) (res : S) (next : N)
  | bareStyle (ctx : DispatchCtx R S N)
deriving DecidableEq, Repr

/-- The arity dispatch of `adaptRequestHandler`
(`src/package/src/infra/utils/RequestHandler.ts`, lines 12-34):
`mw.length === 3`, then `mw.length === 1`, else the bare-object branch
`await mw(ctx)`. -/
def adaptCall {R S N : Type} (arity : Nat) (ctx : DispatchCtx R S N) :
    AdapterCall R S N :=
  if arity = 3 then .callbackStyle ctx.request ctx.response
  else if arity = 1 then .contextStyle ctx.request ctx.response ctx.next
  else .bareStyle ctx

/-- The key list of an association list. -/
def keysA {α : Type} (l : List (String × α)) : List String :=
  l.map Prod.fst

/-- The node descent of the `Router.find` loop (specification apparatus): the
trie node reached after consuming the segments, `none` when a segment matches
neither a literal child nor a parameter child. -/
def walkSegs {H : Type} : List String → Node H → Option (Node H)
  | [], n => some n
  | seg :: rest, n =>
    if seg = "" then walkSegs rest n
    else
      match getA n.children seg with
      | some c => walkSegs rest c
      | none =>
        match getA n.children ":" with
        | some c => walkSegs rest c
        | none => none

/-- The parameter bindings collected along the `Router.find` descent, in
traversal order and before the JS-object overwriting of duplicate names
(specification apparatus). A binding is collected exactly when the loop
descends into a parameter child whose `paramName` is truthy. -/
def paramTrace {H : Type} : List String → Node H → List (String × String)
  | [], _ => []
  | seg :: rest, n =>
    if seg = "" then paramTrace rest n
    else
      match getA n.children seg with
      | some c => paramTrace rest c
      | none =>
        match getA n.children ":" with
        | some c =>
          (match c.paramName with
            | some pn =>
              if pn = "" then paramTrace rest c else (pn, seg) :: paramTrace rest c
            | none => paramTrace rest c)
        | none => []

/-- The `Router.listRoutes` traversal instrumented with the rendered segment
list and the stored handler chain of every emitted route (specification
apparatus for the round-trip property). -/
def routesSegs {H : Type} (n : Node H) : List (String × List String × List H) :=
  n.handlers.map (fun p => (p.1, [], p.2)) ++
      (n.children.attach.map (fun x =>
        (routesSegs x.1.2).map (fun t =>
          (t.1, Router.renderSeg x.1.1 x.1.2 :: t.2.1, t.2.2)))).flatten
termination_by sizeOf n
decreasing_by
  rcases x with ⟨⟨a, b⟩, hx⟩
  have h1 : sizeOf (a, b) < sizeOf n.children := List.sizeOf_lt_of_mem hx
  rcases n with ⟨ch, hs, pn, ip⟩
  simp only [Node.children] at h1
  simp only [Node.mk.sizeOf_spec, Prod.mk.sizeOf_spec] at h1 ⊢
  omega

/-- The path string `Router.listRoutes` accumulates for a segment list. -/
def renderPathSegs (segs : List String) : String :=
  segs.foldl (fun acc s => acc ++ "/" ++ s) ""

/-- The `path || "/"` defaulting applied to an accumulated `listRoutes` path. -/
def renderPath (segs : List String) : String :=
  if renderPathSegs segs = "" then "/" else renderPathSegs segs

/-- Structural well-formedness of a trie reachable through `Router.add`
calls whose paths contain no `?` (specification apparatus): children keys
are nonempty, free of `/` and `?`, the `":"` key carries a present
`paramName` free of `/` and `?`, literal keys do not begin with `:`, key
lists are duplicate-free, and stored method keys are fixed points of
uppercasing. -/
inductive WfN {H : Type} : Node H → Prop where
  | mk (ch : List (String × Node H)) (hs : List (String × List H))
      (pn : Option String) (ip : Bool)
      (hnodupC : (keysA ch).Nodup)
      (hnodupH : (keysA hs).Nodup)
      (hmeth : ∀ p ∈ hs, upStr p.1 = p.1)
      (hkeys : ∀ p ∈ ch, p.1 ≠ "" ∧ '/' ∉ p.1.data ∧ '?' ∉ p.1.data)
      (hparam : ∀ p ∈ ch, p.1 = ":" → ∃ pname, p.2.paramName = some pname ∧
        '/' ∉ pname.data ∧ '?' ∉ pname.data)
      (hlit : ∀ p ∈ ch, p.1 ≠ ":" → p.1.data.head? ≠ some ':')
      (hwf : ∀ p ∈ ch, WfN p.2) :
      WfN (Node.mk ch hs pn ip)

/-- A router built solely through `Router.add` calls, folded left over a
registration list. -/
def buildRouter {H : Type} (adds : List (String × String × List H)) : Node H :=
  adds.foldl (fun r a => Router.add a.1 a.2.1 a.2.2 r) Node.empty

/-- A concrete instance of the abstract `JSON.parse` parameter on which every
input fails to parse; it agrees with the real `JSON.parse` on the non-JSON
texts used in the concrete theorems below (`"hello"`, `"a=1"`). -/
def pj0 : String → Option Unit := fun _ => none

/-- A concrete instance of the abstract `decodeURIComponent` parameter that
decodes every string to itself; it agrees with the real
`decodeURIComponent` on percent-free texts such as those used in the
concrete theorems below. -/
def dec0 : String → Option String := fun s => some s

/-- Router with the literal route `/items/special` and the parameter route
`/items/:id`, both for GET (the scenario of property P1). -/
def demoLiteralParam : Node Nat :=
  Router.add "GET" "/items/:id" [2] (Router.add "GET" "/items/special" [1] Node.empty)

/-- Router with `GET /users/:id/posts/:postId` (the scenario B router). -/
def demoTwoParams : Node Nat :=
  Router.add "GET" "/users/:id/posts/:postId" [7] Node.empty

/-- Router registering the same parameter position twice under different
names: `GET /a/:x/b`, then `GET /a/:y/c`. -/
def demoRenamedParam : Node Nat :=
  Router.add "GET" "/a/:y/c" [2] (Router.add "GET" "/a/:x/b" [1] Node.empty)

/-- Router with one route that repeats a parameter name along its own path:
`GET /a/:x/b/:x`. -/
def demoDupName : Node Nat :=
  Router.add "GET" "/a/:x/b/:x" [1] Node.empty

/-- Router with `POST /p` bound to one handler that writes a response and
stops. -/
def demoPostRoute : Node MwAction :=
  Router.add "POST" "/p" [MwAction.stop] Node.empty

/-- Router registering a path whose only segment contains a literal `?`:
`GET /a?b`. -/
def demoQRouter : Node Nat :=
  Router.add "GET" "/a?b" [1] Node.empty

theorem getA_setA_self {α : Type} (l : List (String × α)) (k : String) (v : α) :
    getA (setA l k v) k = some v := by
  induction l with
  | nil => simp [setA, getA]
  | cons p rest ih =>
    obtain ⟨k0, v0⟩ := p
    by_cases h : k0 = k
    · simp [setA, getA, h]
    · simp [setA, getA, h, ih]

theorem getA_setA_ne {α : Type} (l : List (String × α)) (k k1 : String) (v : α)
    (h : k1 ≠ k) : getA (setA l k v) k1 = getA l k1 := by
  induction l with
  | nil => simp [setA, getA, Ne.symm h]
  | cons p rest ih =>
    obtain ⟨k0, v0⟩ := p
    by_cases hk : k0 = k
    · subst hk
      simp [setA, getA, Ne.symm h]
    · simp only [setA, if_neg hk, getA]
      by_cases hk1 : k0 = k1 <;> simp [hk1, ih]

theorem getA_eq_none {α : Type} (l : List (String × α)) (k : String)
    (h : ∀ p ∈ l, p.1 ≠ k) : getA l k = none := by
  induction l with
  | nil => rfl
  | cons p rest ih =>
    obtain ⟨k0, v0⟩ := p
    have h0 : k0 ≠ k := h (k0, v0) (by simp)
    simp only [getA, if_neg h0]
    exact ih (fun q hq => h q (by simp [hq]))

theorem getA_eq_some_of_mem_nodup {α : Type} (l : List (String × α))
    (k : String) (v : α) (hnd : (keysA l).Nodup) (hmem : (k, v) ∈ l) :
    getA l k = some v := by
  induction l with
  | nil => simp at hmem
  | cons p rest ih =>
    obtain ⟨k0, v0⟩ := p
    simp only [keysA, List.map_cons, List.nodup_cons] at hnd
    rcases List.mem_cons.mp hmem with h | h
    · injection h with h1 h2
      subst h1
      subst h2
      simp [getA]
    · have hk0 : k0 ≠ k := by
        intro he
        subst he
        exact hnd.1 (List.mem_map.mpr ⟨(k0, v), h, rfl⟩)
      simp only [getA, if_neg hk0]
      exact ih hnd.2 h

theorem setA_eq_append_of_not_mem {α : Type} (l : List (String × α))
    (k : String) (v : α) (h : k ∉ keysA l) : setA l k v = l ++ [(k, v)] := by
  induction l with
  | nil => rfl
  | cons p rest ih =>
    obtain ⟨k0, v0⟩ := p
    simp only [keysA, List.map_cons, List.mem_cons] at h
    push_neg at h
    simp only [setA, if_neg (Ne.symm h.1), List.cons_append]
    rw [ih h.2]

theorem keysA_setA {α : Type} (l : List (String × α)) (k : String) (v : α) :
    keysA (setA l k v) = if k ∈ keysA l then keysA l else keysA l ++ [k] := by
  induction l with
  | nil => simp [setA, keysA]
  | cons p rest ih =>
    obtain ⟨k0, v0⟩ := p
    by_cases h : k0 = k
    · subst h
      simp [setA, keysA]
    · simp only [setA, if_neg h, keysA, List.map_cons] at ih ⊢
      rw [ih]
      by_cases hm : k ∈ List.map Prod.fst rest
      · simp [hm, Ne.symm h]
      · simp [hm, Ne.symm h]

theorem nodup_keysA_setA {α : Type} (l : List (String × α)) (k : String) (v : α)
    (h : (keysA l).Nodup) : (keysA (setA l k v)).Nodup := by
  rw [keysA_setA]
  by_cases hm : k ∈ keysA l
  · simpa [hm] using h
  · simp only [hm, if_false]
    exact List.Nodup.append h (List.nodup_singleton k) (by simpa using hm)

theorem mem_setA {α : Type} (l : List (String × α)) (k : String) (v : α)
    (p : String × α) (h : p ∈ setA l k v) : p = (k, v) ∨ p ∈ l := by
  induction l with
  | nil => simpa [setA] using h
  | cons q rest ih =>
    obtain ⟨k0, v0⟩ := q
    by_cases hk : k0 = k
    · subst hk
      simp only [setA, if_true, eq_self_iff_true, List.mem_cons] at h
      rcases h with h | h
      · exact Or.inl h
      · exact Or.inr (List.mem_cons.mpr (Or.inr h))
    · simp only [setA, if_neg hk, List.mem_cons] at h
      rcases h with h | h
      · exact Or.inr (List.mem_cons.mpr (Or.inl h))
      · rcases ih h with h1 | h1
        · exact Or.inl h1
        · exact Or.inr (List.mem_cons.mpr (Or.inr h1))

theorem char_ofNat_toNat_letter (n : Nat) (h1 : 65 ≤ n) (h2 : n ≤ 90) :
    (Char.ofNat n).toNat = n := by
  interval_cases n <;> decide

theorem upChar_idem (c : Char) : upChar (upChar c) = upChar c := by
  by_cases h : 97 ≤ c.toNat ∧ c.toNat ≤ 122
  · have h1 : upChar c = Char.ofNat (c.toNat - 32) := by simp [upChar, h]
    rw [h1]
    have h2 := char_ofNat_toNat_letter (c.toNat - 32) (by omega) (by omega)
    simp only [upChar, h2]
    rw [if_neg]
    omega
  · have h1 : upChar c = c := by simp [upChar, h]
    rw [h1]
    exact h1

theorem upStr_idem (s : String) : upStr (upStr s) = upStr s := by
  simp only [upStr, List.map_map]
  exact congrArg String.mk
    (List.map_congr_left (fun a _ => upChar_idem a))

theorem addSegs_paramName {H : Type} (method : String) (hs : List H)
    (segs : List String) (n : Node H) :
    (Router.addSegs method hs segs n).paramName = n.paramName := by
  cases segs with
  | nil => rfl
  | cons seg rest =>
    simp only [Router.addSegs]
    split <;> rfl

theorem findSegs_literal_step {H : Type} (n c : Node H) (seg : String)
    (rest : List String) (params : List (String × String)) (method : String)
    (hne : seg ≠ "") (hget : getA n.children seg = some c) :
    Router.findSegs method (seg :: rest) n params =
      Router.findSegs method rest c params := by
  simp [Router.findSegs, hne, hget]

theorem findSegs_param_step {H : Type} (n c : Node H) (seg : String)
    (rest : List String) (params : List (String × String)) (method : String)
    (hne : seg ≠ "") (hget : getA n.children seg = none)
    (hgp : getA n.children ":" = some c) :
    Router.findSegs method (seg :: rest) n params =
      Router.findSegs method rest c
        (match c.paramName with
          | some pn => if pn = "" then params else setA params pn seg
          | none => params) := by
  simp [Router.findSegs, hne, hget, hgp]

/-- C1: literal match strictly precedes parameter match at every trie level —
whenever the current node has a literal child keyed by the current (nonempty)
segment, the `find` loop descends into that literal child (so the parameter
child is never consulted there and no capture is recorded); in particular,
with both `/items/special` and `/items/:id` registered, `find("GET",
"/items/special")` returns the literal route's handlers with empty params. -/
theorem router_literal_precedes_param :
    (∀ (n c : Node Nat) (seg : String) (rest : List String)
        (params : List (String × String)) (method : String),
        seg ≠ "" → getA n.children seg = some c →
        Router.findSegs method (seg :: rest) n params =
          Router.findSegs method rest c params) ∧
    Router.find demoLiteralParam "GET" "/items/special" =
      .ok ⟨[1], []⟩ := by
  constructor
  · intro n c seg rest params method hne hget
    exact findSegs_literal_step n c seg rest params method hne hget
  · decide

/-- Witness for C1 at a concrete trie: the root has a literal child `"a"`
(and a parameter child), and the loop takes the literal step. -/
theorem router_literal_precedes_param_witness :
    (("a" : String) ≠ "") ∧
    (getA (Node.mk [("a", (Node.empty : Node Nat)),
        (":", Node.mk [] [] (some "p") true)] [] none false).children "a" =
      some Node.empty) ∧
    Router.findSegs "GET" ["a"]
        (Node.mk [("a", (Node.empty : Node Nat)),
          (":", Node.mk [] [] (some "p") true)] [] none false) [] =
      Router.findSegs "GET" [] Node.empty [] :=
  ⟨by decide, rfl,
    router_literal_precedes_param.1
      (Node.mk [("a", Node.empty), (":", Node.mk [] [] (some "p") true)] [] none false)
      Node.empty "a" [] [] "GET" (by decide) rfl⟩

/-- C5: for a handler whose declared parameter count is neither 3 nor 1, the
adapter invokes the handler with the full dispatch context object as-is — the
object built by the pipeline as `\x7b request, response, req, res, next \x7d`
with `req`/`res` aliasing `request`/`response` — and awaits the result
directly (the `bareStyle` invocation). -/
theorem adapter_other_arity_bare_ctx :
    ∀ (R S N : Type) (arity : Nat) (r : R) (s : S) (n : N),
      arity ≠ 3 → arity ≠ 1 →
      adaptCall arity (mkDispatchCtx r s n) = .bareStyle ⟨r, s, r, s, n⟩ ∧
      (mkDispatchCtx r s n).req = (mkDispatchCtx r s n).request ∧
      (mkDispatchCtx r s n).res = (mkDispatchCtx r s n).response := by
  intro R S N arity r s n h3 h1
  refine ⟨?_, rfl, rfl⟩
  simp [adaptCall, h3, h1, mkDispatchCtx]

/-- Witness for C5 at arity 2 (the example arity from the claim). -/
theorem adapter_other_arity_bare_ctx_witness :
    ((2 : Nat) ≠ 3) ∧ ((2 : Nat) ≠ 1) ∧
    (adaptCall 2 (mkDispatchCtx (10 : Nat) (20 : Nat) (30 : Nat)) =
        .bareStyle ⟨10, 20, 10, 20, 30⟩ ∧
      (mkDispatchCtx (10 : Nat) (20 : Nat) (30 : Nat)).req =
        (mkDispatchCtx (10 : Nat) (20 : Nat) (30 : Nat)).request ∧
      (mkDispatchCtx (10 : Nat) (20 : Nat) (30 : Nat)).res =
        (mkDispatchCtx (10 : Nat) (20 : Nat) (30 : Nat)).response) :=
  ⟨by decide, by decide,
    adapter_other_arity_bare_ctx Nat Nat Nat 2 10 20 30 (by decide) (by decide)⟩

/-- C7: a node's parameter child keeps its `paramName` for the lifetime of
the trie — an `add` that walks a `:`-prefixed segment through a node that
already has a parameter child leaves that child's `paramName` unchanged
(the source only logs a debug warning on a mismatch) — and matching then
continues to bind captures under the original name: after registering
`GET /a/:x/b` and then `GET /a/:y/c`, both `/a/1/b` and `/a/1/c` bind the
capture under `"x"`. -/
theorem param_name_fixed :
    (∀ (H : Type) (n c : Node H) (method : String) (hs : List H)
        (seg : String) (rest : List String),
        startsColon seg = true → getA n.children ":" = some c →
        getA (Router.addSegs method hs (seg :: rest) n).children ":" =
          some (Router.addSegs method hs rest c) ∧
        (Router.addSegs method hs rest c).paramName = c.paramName) ∧
    Router.find demoRenamedParam "GET" "/a/1/b" = .ok ⟨[1], [("x", "1")]⟩ ∧
    Router.find demoRenamedParam "GET" "/a/1/c" = .ok ⟨[2], [("x", "1")]⟩ := by
  refine ⟨?_, by decide, by decide⟩
  intro H n c method hs seg rest hcolon hget
  constructor
  · simp only [Router.addSegs, hcolon, if_true, hget]
    exact getA_setA_self _ _ _
  · exact addSegs_paramName method hs rest c

/-- Witness for C7: adding `/:y` through a root whose parameter child is
named `x` keeps the name `x`. -/
theorem param_name_fixed_witness :
    (startsColon ":y" = true) ∧
    (getA ((Node.mk [(":", Node.mk [] [] (some "x") true)] [] none false : Node Nat)).children ":" =
      some (Node.mk [] [] (some "x") true)) ∧
    (getA (Router.addSegs "GET" [5] [":y"]
        ((Node.mk [(":", Node.mk [] [] (some "x") true)] [] none false) : Node Nat)).children ":" =
      some (Router.addSegs "GET" [5] []
        ((Node.mk [] [] (some "x") true) : Node Nat)) ∧
      (Router.addSegs "GET" [5] []
        ((Node.mk [] [] (some "x") true) : Node Nat)).paramName =
        ((Node.mk [] [] (some "x") true) : Node Nat).paramName) :=
  ⟨by decide, rfl,
    param_name_fixed.1 Nat
      (Node.mk [(":", Node.mk [] [] (some "x") true)] [] none false)
      (Node.mk [] [] (some "x") true) "GET" [5] ":y" [] (by decide) rfl⟩

theorem range_map_shift (b m : Nat) :
    (List.range (m + 1)).map (fun j => b + j) =
      b :: (List.range m).map (fun j => (b + 1) + j) := by
  rw [List.range_succ_eq_map]
  simp only [List.map_cons, List.map_map, Nat.add_zero]
  refine congrArg (b :: ·) ?_
  refine List.map_congr_left (fun a _ => ?_)
  simp only [Function.comp_apply]
  omega

theorem runFromNode_error_shift (chain : List MwAction) : ∀ (i b : Nat) (e : Err),
    (chain[i]? = some (MwAction.callNextErr e) ∨
      chain[i]? = some (MwAction.throwErr e)) →
    (∀ j, j < i → chain[j]? = some MwAction.callNext) →
    runFromNode b chain =
      ((List.range (i + 1)).map (fun j => b + j),
        .errored (errStatus e) (errBody e)) := by
  induction chain with
  | nil =>
    intro i b e h1 h2
    rcases h1 with h | h <;> simp at h
  | cons a rest ih =>
    intro i b e h1 h2
    cases i with
    | zero =>
      rcases h1 with h | h <;>
      · simp only [List.getElem?_cons_zero, Option.some.injEq] at h
        subst h
        simp [runFromNode, List.range_succ]
    | succ m =>
      have ha := h2 0 (Nat.succ_pos m)
      simp only [List.getElem?_cons_zero, Option.some.injEq] at ha
      subst ha
      have h1a : rest[m]? = some (MwAction.callNextErr e) ∨
          rest[m]? = some (MwAction.throwErr e) := by
        simpa [List.getElem?_cons_succ] using h1
      have h2a : ∀ j, j < m → rest[j]? = some MwAction.callNext := by
        intro j hj
        have := h2 (j + 1) (Nat.succ_lt_succ hj)
        simpa [List.getElem?_cons_succ] using this
      have hr := ih m (b + 1) e h1a h2a
      simp only [runFromNode, hr, range_map_shift]

/-- C3: error short-circuit — if every chain entry before position `i` hands
control on with `next()` and the entry at `i` calls `next(err)` or throws,
then exactly the entries `0..i` execute (no later entry runs), the pipeline
terminates with a single error response, and its status is the error's
`status` field for an `HttpError` and 500 otherwise. -/
theorem chain_error_short_circuit :
    ∀ (chain : List MwAction) (i : Nat) (e : Err),
      (chain[i]? = some (MwAction.callNextErr e) ∨
        chain[i]? = some (MwAction.throwErr e)) →
      (∀ j, j < i → chain[j]? = some MwAction.callNext) →
      runChainNode chain =
        (List.range (i + 1),
          .errored (match e with | .http he => he.status | .plain _ => 500)
            (errBody e)) := by
  intro chain i e h1 h2
  have hr := runFromNode_error_shift chain i 0 e h1 h2
  have hm : (List.range (i + 1)).map (fun j => 0 + j) = List.range (i + 1) := by
    refine Eq.trans (List.map_congr_left (fun a _ => Nat.zero_add a)) (List.map_id _)
  rw [runChainNode, hr, hm]
  rcases e with he | m <;> rfl

/-- Witness for C3: a middleware chain whose second entry calls `next(err)`
with a 403 `HttpError`; entries after it never run and the outcome carries
status 403. -/
theorem chain_error_short_circuit_witness :
    (([MwAction.callNext, MwAction.callNextErr (.http ⟨403, "m", none⟩),
        MwAction.stop] : List MwAction)[1]? =
      some (MwAction.callNextErr (.http ⟨403, "m", none⟩)) ∨
      ([MwAction.callNext, MwAction.callNextErr (.http ⟨403, "m", none⟩),
        MwAction.stop] : List MwAction)[1]? =
      some (MwAction.throwErr (.http ⟨403, "m", none⟩))) ∧
    runChainNode [MwAction.callNext, MwAction.callNextErr (.http ⟨403, "m", none⟩),
        MwAction.stop] =
      (List.range 2, .errored 403 (errBody (.http ⟨403, "m", none⟩))) :=
  ⟨Or.inl (by decide),
    chain_error_short_circuit
      [MwAction.callNext, MwAction.callNextErr (.http ⟨403, "m", none⟩), MwAction.stop]
      1 (.http ⟨403, "m", none⟩) (Or.inl (by decide))
      (by intro j hj; interval_cases j <;> decide)⟩

theorem runFromNode_prefix_range (chain : List MwAction) : ∀ b : Nat,
    ∃ k, k ≤ chain.length ∧
      (runFromNode b chain).1 = (List.range k).map (fun j => b + j) := by
  induction chain with
  | nil =>
    intro b
    exact ⟨0, Nat.le_refl 0, by simp [runFromNode]⟩
  | cons a rest ih =>
    intro b
    cases a with
    | callNext =>
      obtain ⟨k, hk, he⟩ := ih (b + 1)
      refine ⟨k + 1, by simpa using Nat.succ_le_succ hk, ?_⟩
      simp [runFromNode, he, range_map_shift]
    | stop =>
      exact ⟨1, by simp, by simp [runFromNode, List.range_succ]⟩
    | callNextErr e =>
      exact ⟨1, by simp, by simp [runFromNode, List.range_succ]⟩
    | throwErr e =>
      exact ⟨1, by simp, by simp [runFromNode, List.range_succ]⟩

theorem runFromNode_exec_callNext (chain : List MwAction) : ∀ (b n : Nat),
    (b + (n + 1)) ∈ (runFromNode b chain).1 →
    chain[n]? = some MwAction.callNext := by
  induction chain with
  | nil =>
    intro b n h
    simp [runFromNode] at h
  | cons a rest ih =>
    intro b n h
    cases a with
    | stop =>
      simp only [runFromNode, List.mem_singleton] at h
      omega
    | callNextErr e =>
      simp only [runFromNode, List.mem_singleton] at h
      omega
    | throwErr e =>
      simp only [runFromNode, List.mem_singleton] at h
      omega
    | callNext =>
      simp only [runFromNode, List.mem_cons] at h
      rcases h with h | h
      · omega
      · cases n with
        | zero => simp
        | succ m =>
          have hm : ((b + 1) + (m + 1)) ∈ (runFromNode (b + 1) rest).1 := by
            have he : (b + 1) + (m + 1) = b + (m + 1 + 1) := by omega
            rw [he]
            exact h
          have := ih (b + 1) m hm
          simpa using this

/-- C4: within one request the chain — global middlewares in registration
order followed by the matched route's handlers in registration order —
executes strictly sequentially: the executed indices are exactly
`0, 1, ..., k-1` for some prefix length `k` (no reordering, no skipping,
no parallel fan-out), entry `n+1` runs only if entry `n` handed control on
with `next()`, and whenever any route handler runs, every global middleware
has already run (it appears earlier in the execution order). -/
theorem chain_sequential_order :
    ∀ (mws handlers : List MwAction),
      ∃ k, k ≤ (mws ++ handlers).length ∧
        (runChainNode (mws ++ handlers)).1 = List.range k ∧
        (∀ n, (n + 1) ∈ List.range k →
          (mws ++ handlers)[n]? = some MwAction.callNext) ∧
        (∀ g r, g < mws.length → mws.length ≤ r → r ∈ List.range k →
          g ∈ List.range k) := by
  intro mws handlers
  obtain ⟨k, hk, he⟩ := runFromNode_prefix_range (mws ++ handlers) 0
  have hid : (List.range k).map (fun j => (0 : Nat) + j) = List.range k := by
    refine Eq.trans (List.map_congr_left (fun a _ => Nat.zero_add a)) (List.map_id _)
  rw [hid] at he
  refine ⟨k, hk, he, ?_, ?_⟩
  · intro n hn
    have hmem : (0 + (n + 1)) ∈ (runFromNode 0 (mws ++ handlers)).1 := by
      rw [he]
      simpa using hn
    exact runFromNode_exec_callNext (mws ++ handlers) 0 n hmem
  · intro g r hg hr hrm
    have hrk : r < k := List.mem_range.mp hrm
    exact List.mem_range.mpr (by omega)

/-- Witness for C4: one global middleware followed by one route handler; the
execution order is `[0, 1]` — the middleware strictly before the handler. -/
theorem chain_sequential_order_witness :
    ∃ k, k ≤ ([MwAction.callNext] ++ [MwAction.stop]).length ∧
      (runChainNode ([MwAction.callNext] ++ [MwAction.stop])).1 = List.range k ∧
      (∀ n, (n + 1) ∈ List.range k →
        ([MwAction.callNext] ++ [MwAction.stop])[n]? = some MwAction.callNext) ∧
      (∀ g r, g < [MwAction.callNext].length → [MwAction.callNext].length ≤ r →
        r ∈ List.range k → g ∈ List.range k) :=
  chain_sequential_order [MwAction.callNext] [MwAction.stop]

theorem takeWhile_true_append (f : Char → Bool) (l1 l2 : List Char)
    (h1 : ∀ c ∈ l1, f c = true)
    (h2 : l2 = [] ∨ ∃ c t, l2 = c :: t ∧ f c = false) :
    (l1 ++ l2).takeWhile f = l1 := by
  induction l1 with
  | nil =>
    rcases h2 with h | ⟨c, t, he, hf⟩
    · simp [h]
    · simp [he, List.takeWhile, hf]
  | cons a t1 ih =>
    have ha : f a = true := h1 a (by simp)
    simp only [List.cons_append, List.takeWhile_cons, ha, if_true]
    rw [ih (fun c hc => h1 c (by simp [hc]))]

theorem beforeChar_append_search (p s : String)
    (hp : ∀ c ∈ p.data, c ≠ '?')
    (hs : s = "" ∨ s.data.head? = some '?') :
    beforeChar '?' (p ++ s) = p := by
  unfold beforeChar
  rw [String.data_append]
  rw [takeWhile_true_append]
  · intro c hc
    simpa using hp c hc
  · rcases hs with h | h
    · subst h
      exact Or.inl rfl
    · rcases hd : s.data with _ | ⟨c, t⟩
      · exact Or.inl rfl
      · rw [hd] at h
        simp only [List.head?_cons, Option.some.injEq] at h
        subst h
        exact Or.inr ⟨'?', t, rfl, by simp⟩

theorem runFromNode_eq_runFromFetch : ∀ (chain : List MwAction) (b : Nat),
    runFromNode b chain = runFromFetch b chain := by
  intro chain
  induction chain with
  | nil => intro b; rfl
  | cons a rest ih =>
    intro b
    cases a with
    | callNext => simp [runFromNode, runFromFetch, ih (b + 1)]
    | stop => rfl
    | callNextErr e => rfl
    | throwErr e => rfl

theorem nodeBody_eq_fetchBody_json {J : Type} (pj : String → Option J)
    (dec : String → Option String) (ct buf : String)
    (hj : containsStr ct "application/json" = true) (hb : buf ≠ "") :
    nodeBody pj dec ct buf = fetchBody pj dec ct buf := by
  simp [nodeBody, fetchBody, hj, hb]

theorem nodeBody_eq_fetchBody_form {J : Type} (pj : String → Option J)
    (dec : String → Option String) (ct buf : String)
    (hj : containsStr ct "application/json" = false)
    (hf : containsStr ct "application/x-www-form-urlencoded" = true) :
    nodeBody pj dec ct buf = fetchBody pj dec ct buf := by
  simp [nodeBody, fetchBody, hj, hf]

theorem find_none_of_false {α : Type} (p : α → Bool) :
    ∀ l : List α, (∀ x ∈ l, p x = false) → l.find? p = none := by
  intro l
  induction l with
  | nil => intro _; rfl
  | cons a t ih =>
    intro h
    have ha := h a (by simp)
    simp [List.find?_cons, ha, ih (fun x hx => h x (by simp [hx]))]

/-- Counterexample to C2 as stated, in two parts. First, the parsed bodies
differ: for the same `POST /p` request with Content-Type `text/plain` and
body `a=1`, the Node transport parses the body with the form parser and sees
the record `(a, 1)`, while the Web transport sees the raw text `"a=1"`
(`pj0`/`dec0` agree with `JSON.parse`/`decodeURIComponent` on these inputs:
`JSON.parse("a=1")` throws, `decodeURIComponent` is the identity on
percent-free text). Second, a registered proxy breaks every remaining part
of the claim: with a proxy mounted at `/p` whose handler signals a 502, the
Node transport short-circuits routing into the proxy branch and answers 502
while the Web transport — which has no proxy handling — resolves the route,
runs its handler chain, and completes normally: different route resolution,
different executed chain, different status. -/
theorem node_fetch_body_divergence :
    ((nodeDispatch pj0 dec0 demoPostRoute [] [] "POST" "/p" "text/plain" "a=1").body =
      BodyVal.obj [("a", "1")] ∧
    (fetchDispatch pj0 dec0 demoPostRoute [] "POST" "/p" "text/plain" "a=1").body =
      BodyVal.str "a=1" ∧
    (BodyVal.obj [("a", "1")] : BodyVal Unit) ≠ BodyVal.str "a=1") ∧
    ((nodeDispatch pj0 dec0 demoPostRoute
        [("/p", MwAction.callNextErr (.http ⟨502, "bad gateway", none⟩))] []
        "POST" "/p" "application/x-www-form-urlencoded" "a=1").outcome =
      .errored 502 (.errObj "bad gateway") ∧
    (nodeDispatch pj0 dec0 demoPostRoute
        [("/p", MwAction.callNextErr (.http ⟨502, "bad gateway", none⟩))] []
        "POST" "/p" "application/x-www-form-urlencoded" "a=1").routed = none ∧
    (fetchDispatch pj0 dec0 demoPostRoute []
        "POST" "/p" "application/x-www-form-urlencoded" "a=1").outcome = .done ∧
    (fetchDispatch pj0 dec0 demoPostRoute []
        "POST" "/p" "application/x-www-form-urlencoded" "a=1").routed =
      some ([], [MwAction.stop]) ∧
    Outcome.errored 502 (.errObj "bad gateway") ≠ Outcome.done) := by
  refine ⟨⟨by decide, by decide, by decide⟩,
    by decide, by decide, by decide, by decide, by decide⟩

/-- C2 (amended): for identical method, path, headers and body, the Node
entry point (`handle`) and the Web entry point (`fetch`) produce the same
route-resolution outcome (same handler chain and params), the same execution
order of chain entries, and the same outcome (identical status and
error-payload shape on failure) — provided no registered proxy path is a
prefix of the request path, since a matching proxy short-circuits `handle`
into its proxy branch while `fetch` has no proxy handling; and the parsed
bodies agree whenever the Content-Type is `application/json` (with a
nonempty body) or URL-encoded form, or the method is non-mutating — but not
in general for other content types. -/
theorem node_fetch_dispatch_equiv :
    ∀ (J : Type) (pj : String → Option J) (dec : String → Option String)
      (router : Node MwAction) (proxies : List (String × MwAction))
      (mws : List MwAction) (method pathname search ct bodyText : String),
      method ≠ "" →
      (∀ c ∈ pathname.data, c ≠ '?') →
      (search = "" ∨ search.data.head? = some '?') →
      (∀ pr ∈ proxies,
        startsWithStr (if pathname = "" then "/" else pathname) pr.1 = false) →
      (nodeDispatch pj dec router proxies mws method (pathname ++ search) ct bodyText).routed =
        (fetchDispatch pj dec router mws method pathname ct bodyText).routed ∧
      (nodeDispatch pj dec router proxies mws method (pathname ++ search) ct bodyText).executed =
        (fetchDispatch pj dec router mws method pathname ct bodyText).executed ∧
      (nodeDispatch pj dec router proxies mws method (pathname ++ search) ct bodyText).outcome =
        (fetchDispatch pj dec router mws method pathname ct bodyText).outcome ∧
      (containsStr ct "application/json" = true → bodyText ≠ "" →
        (nodeDispatch pj dec router proxies mws method (pathname ++ search) ct bodyText).body =
          (fetchDispatch pj dec router mws method pathname ct bodyText).body) ∧
      (containsStr ct "application/json" = false →
        containsStr ct "application/x-www-form-urlencoded" = true →
        (nodeDispatch pj dec router proxies mws method (pathname ++ search) ct bodyText).body =
          (fetchDispatch pj dec router mws method pathname ct bodyText).body) ∧
      (isMutating method = false →
        (nodeDispatch pj dec router proxies mws method (pathname ++ search) ct bodyText).body =
          (fetchDispatch pj dec router mws method pathname ct bodyText).body) := by
  intro J pj dec router proxies mws method pathname search ct bodyText hm hp hs hprox
  have hpath : beforeChar '?' (pathname ++ search) = pathname :=
    beforeChar_append_search pathname search hp hs
  have hfnone : proxies.find?
      (fun pr => startsWithStr (if pathname = "" then "/" else pathname) pr.1) = none :=
    find_none_of_false _ proxies (fun pr hpr => hprox pr hpr)
  simp only [nodeDispatch, fetchDispatch, hpath, if_neg hm, hfnone,
    runChainNode, runChainFetch, runFromNode_eq_runFromFetch]
  cases hfind : Router.find router method (if pathname = "" then "/" else pathname) with
  | error e =>
    refine ⟨rfl, rfl, rfl, ?_, ?_, ?_⟩
    · intro hj hb
      simp [nodeBody_eq_fetchBody_json pj dec ct bodyText hj hb]
    · intro hj hf
      simp [nodeBody_eq_fetchBody_form pj dec ct bodyText hj hf]
    · intro hmut
      simp [hmut]
  | ok res =>
    refine ⟨rfl, rfl, rfl, ?_, ?_, ?_⟩
    · intro hj hb
      simp [nodeBody_eq_fetchBody_json pj dec ct bodyText hj hb]
    · intro hj hf
      simp [nodeBody_eq_fetchBody_form pj dec ct bodyText hj hf]
    · intro hmut
      simp [hmut]

/-- Witness for C2 (amended) at a concrete JSON request with a registered
proxy that does not match the request path. -/
theorem node_fetch_dispatch_equiv_witness :
    (("POST" : String) ≠ "") ∧
    (∀ pr ∈ ([("/api", MwAction.stop)] : List (String × MwAction)),
      startsWithStr (if ("/p" : String) = "" then "/" else "/p") pr.1 = false) ∧
    (nodeDispatch pj0 dec0 demoPostRoute [("/api", MwAction.stop)] [] "POST"
        ("/p" ++ "") "application/json" "x").outcome =
      (fetchDispatch pj0 dec0 demoPostRoute [] "POST" "/p" "application/json"
        "x").outcome :=
  ⟨by decide, by decide,
    (node_fetch_dispatch_equiv Unit pj0 dec0 demoPostRoute
      [("/api", MwAction.stop)] [] "POST" "/p" "" "application/json" "x"
      (by decide) (by decide) (Or.inl rfl) (by decide)).2.2.1⟩

/-- Counterexample to C9 as stated: a mutating request whose Content-Type is
neither JSON nor URL-encoded form does not yield an empty object as the
request body — the Node transport runs the form parser over it (here
`"hello"` becomes the record `(hello, "")`), and the Web transport keeps the
raw text. -/
theorem body_other_content_type_not_empty :
    nodeBody pj0 dec0 "text/plain" "hello" = BodyVal.obj [("hello", "")] ∧
    fetchBody pj0 dec0 "text/plain" "hello" = BodyVal.str "hello" ∧
    (BodyVal.obj [("hello", "")] : BodyVal Unit) ≠ BodyVal.obj [] ∧
    (BodyVal.str "hello" : BodyVal Unit) ≠ BodyVal.obj [] := by
  refine ⟨by decide, by decide, by decide, by decide⟩

/-- C9 (amended): body decoding for a mutating request never raises to the
caller — it always produces a value — with this dispatch per Content-Type:
JSON is parsed with `JSON.parse` and a malformed JSON body recovers locally
to the empty object; a URL-encoded form body is parsed with the form parser
on both transports (a failing `decodeURIComponent` likewise recovers to the
empty object); but any other Content-Type does not yield an empty object in
general: the Node transport runs the form parser over the raw body and the
Web transport yields the raw text. -/
theorem body_decode_amended :
    ∀ (J : Type) (pj : String → Option J) (dec : String → Option String)
      (ct buf : String),
      (containsStr ct "application/json" = true →
        (∀ j, pj (if buf = "" then "\x7b\x7d" else buf) = some j →
          nodeBody pj dec ct buf = .parsed j) ∧
        (pj (if buf = "" then "\x7b\x7d" else buf) = none →
          nodeBody pj dec ct buf = .obj []) ∧
        (∀ j, pj buf = some j → fetchBody pj dec ct buf = .parsed j) ∧
        (pj buf = none → fetchBody pj dec ct buf = .obj [])) ∧
      (containsStr ct "application/json" = false →
        (∀ kvs, parseQS dec buf = some kvs →
          nodeBody pj dec ct buf = .obj (flattenQS kvs)) ∧
        (parseQS dec buf = none → nodeBody pj dec ct buf = .obj [])) ∧
      (containsStr ct "application/json" = false →
        containsStr ct "application/x-www-form-urlencoded" = true →
        (∀ kvs, parseQS dec buf = some kvs →
          fetchBody pj dec ct buf = .obj (flattenQS kvs)) ∧
        (parseQS dec buf = none → fetchBody pj dec ct buf = .obj [])) ∧
      (containsStr ct "application/json" = false →
        containsStr ct "application/x-www-form-urlencoded" = false →
        fetchBody pj dec ct buf = .str buf) := by
  intro J pj dec ct buf
  refine ⟨?_, ?_, ?_, ?_⟩
  · intro hj
    refine ⟨?_, ?_, ?_, ?_⟩
    · intro j hpj
      simp [nodeBody, hj, hpj]
    · intro hpj
      simp [nodeBody, hj, hpj]
    · intro j hpj
      simp [fetchBody, hj, hpj]
    · intro hpj
      simp [fetchBody, hj, hpj]
  · intro hj
    refine ⟨?_, ?_⟩
    · intro kvs hq
      simp [nodeBody, hj, hq]
    · intro hq
      simp [nodeBody, hj, hq]
  · intro hj hf
    refine ⟨?_, ?_⟩
    · intro kvs hq
      simp [fetchBody, hj, hf, hq]
    · intro hq
      simp [fetchBody, hj, hf, hq]
  · intro hj hf
    simp [fetchBody, hj, hf]

/-- Witness for C9 (amended): a malformed JSON body recovers to the empty
object on the Node transport. -/
theorem body_decode_amended_witness :
    (containsStr "application/json" "application/json" = true) ∧
    (pj0 (if ("notjson" : String) = "" then "\x7b\x7d" else "notjson") = none) ∧
    nodeBody pj0 dec0 "application/json" "notjson" = BodyVal.obj [] :=
  ⟨by decide, rfl,
    ((body_decode_amended Unit pj0 dec0 "application/json" "notjson").1
      (by decide)).2.1 rfl⟩

theorem findSegs_params_trace {H : Type} (m : String) :
    ∀ (segs : List String) (n : Node H) (params : List (String × String))
      (res : MatchResult H),
      Router.findSegs m segs n params = .ok res →
      res.params = (paramTrace segs n).foldl (fun ps p => setA ps p.1 p.2) params := by
  intro segs
  induction segs with
  | nil =>
    intro n params res h
    simp only [Router.findSegs] at h
    cases hg : getA n.handlers (upStr m) with
    | none =>
      rw [hg] at h
      exact absurd h (by simp)
    | some hs =>
      rw [hg] at h
      injection h with he
      rw [← he]
      rfl
  | cons seg rest ih =>
    intro n params res h
    by_cases hse : seg = ""
    · simp only [Router.findSegs, if_pos hse] at h
      simp only [paramTrace, if_pos hse]
      exact ih n params res h
    · simp only [Router.findSegs, if_neg hse] at h
      simp only [paramTrace, if_neg hse]
      cases hg : getA n.children seg with
      | some c =>
        rw [hg] at h
        exact ih c params res h
      | none =>
        rw [hg] at h
        cases hp : getA n.children ":" with
        | none =>
          rw [hp] at h
          exact absurd h (by simp)
        | some c =>
          rw [hp] at h
          have h2 : Router.findSegs m rest c
              (match c.paramName with
                | some pn => if pn = "" then params else setA params pn seg
                | none => params) = Except.ok res := h
          show res.params = List.foldl (fun ps p => setA ps p.1 p.2) params
            (match c.paramName with
              | some pn =>
                if pn = "" then paramTrace rest c else (pn, seg) :: paramTrace rest c
              | none => paramTrace rest c)
          cases hpn : c.paramName with
          | none =>
            rw [hpn] at h2
            exact ih c params res h2
          | some pn =>
            rw [hpn] at h2
            have h3 : Router.findSegs m rest c
                (if pn = "" then params else setA params pn seg) = Except.ok res := h2
            show res.params = List.foldl (fun ps p => setA ps p.1 p.2) params
              (if pn = "" then paramTrace rest c else (pn, seg) :: paramTrace rest c)
            by_cases hpe : pn = ""
            · rw [if_pos hpe] at h3
              rw [if_pos hpe]
              exact ih c params res h3
            · rw [if_neg hpe] at h3
              rw [if_neg hpe]
              simp only [List.foldl_cons]
              exact ih c (setA params pn seg) res h3

theorem foldl_setA_append (l : List (String × String)) :
    ∀ acc : List (String × String),
      (∀ p ∈ l, p.1 ∉ keysA acc) → (l.map Prod.fst).Nodup →
      l.foldl (fun ps p => setA ps p.1 p.2) acc = acc ++ l := by
  induction l with
  | nil =>
    intro acc hd hn
    simp
  | cons q t ih =>
    intro acc hd hn
    obtain ⟨k, v⟩ := q
    simp only [List.foldl_cons]
    have hk : k ∉ keysA acc := hd (k, v) (by simp)
    rw [setA_eq_append_of_not_mem acc k v hk]
    simp only [List.map_cons, List.nodup_cons] at hn
    rw [ih (acc ++ [(k, v)]) ?_ hn.2]
    · simp
    · intro p hp
      simp only [keysA, List.map_append, List.mem_append]
      push_neg
      refine ⟨fun hc => hd p (by simp [hp]) hc, ?_⟩
      simp only [List.map_cons, List.map_nil, List.mem_singleton]
      intro hc
      exact hn.1 (hc ▸ List.mem_map.mpr ⟨p, hp, rfl⟩)

/-- Counterexample to C6 as stated: the route `GET /a/:x/b/:x` repeats the
parameter name `x`; the request `/a/1/b/2` traverses two parameter segments
(the trace of bindings is `[(x, 1), (x, 2)]`), yet the returned `params`
carries a single key — not one key per traversed parameter segment — and the
first segment's text `"1"` is not bound anywhere. -/
theorem params_duplicate_name_collapse :
    Router.find demoDupName "GET" "/a/1/b/2" = .ok ⟨[1], [("x", "2")]⟩ ∧
    paramTrace (Router.findSegments "/a/1/b/2") demoDupName =
      [("x", "1"), ("x", "2")] ∧
    ([("x", "2")] : List (String × String)).length ≠ 2 := by
  refine ⟨by decide, by decide, by decide⟩

/-- C6 (amended): the `params` returned by a successful `find` are exactly
the parameter bindings collected along the matched path, applied in
traversal order with JS-object overwriting — so a later duplicate parameter
name overwrites an earlier one; in particular, when the parameter names
along the matched path are pairwise distinct, `params` is exactly one key
per traversed parameter segment, bound to the corresponding request segment
text, with no other keys. Scenario B holds as specified. -/
theorem params_capture_exact_amended :
    Router.find demoTwoParams "GET" "/users/7/posts/99" =
      .ok ⟨[7], [("id", "7"), ("postId", "99")]⟩ ∧
    (∀ (H : Type) (root : Node H) (method path : String) (res : MatchResult H),
      Router.find root method path = .ok res →
      res.params = (paramTrace (Router.findSegments path) root).foldl
        (fun ps p => setA ps p.1 p.2) []) ∧
    (∀ (H : Type) (root : Node H) (method path : String) (res : MatchResult H),
      Router.find root method path = .ok res →
      ((paramTrace (Router.findSegments path) root).map Prod.fst).Nodup →
      res.params = paramTrace (Router.findSegments path) root) := by
  refine ⟨by decide, ?_, ?_⟩
  · intro H root method path res h
    exact findSegs_params_trace method (Router.findSegments path) root [] res h
  · intro H root method path res h hnd
    have h1 := findSegs_params_trace method (Router.findSegments path) root [] res h
    rw [h1]
    rw [foldl_setA_append _ [] (by simp [keysA]) hnd]
    simp

/-- Witness for C6 (amended) at scenario B: the trace has distinct names and
`params` equals it exactly. -/
theorem params_capture_exact_amended_witness :
    (Router.find demoTwoParams "GET" "/users/7/posts/99" =
      .ok ⟨[7], [("id", "7"), ("postId", "99")]⟩) ∧
    ((paramTrace (Router.findSegments "/users/7/posts/99") demoTwoParams).map
      Prod.fst).Nodup ∧
    (⟨[7], [("id", "7"), ("postId", "99")]⟩ : MatchResult Nat).params =
      paramTrace (Router.findSegments "/users/7/posts/99") demoTwoParams :=
  ⟨by decide, by decide,
    params_capture_exact_amended.2.2 Nat demoTwoParams "GET" "/users/7/posts/99"
      ⟨[7], [("id", "7"), ("postId", "99")]⟩ (by decide) (by decide)⟩

theorem findSegs_error_iff {H : Type} (m : String) :
    ∀ (segs : List String) (n : Node H) (params : List (String × String)),
      (∀ e, Router.findSegs m segs n params = .error e →
        e = ⟨404, "Route not found", none⟩) ∧
      ((∃ e, Router.findSegs m segs n params = .error e) ↔
        walkSegs segs n = none ∨
        ∃ nf, walkSegs segs n = some nf ∧ getA nf.handlers (upStr m) = none) := by
  intro segs
  induction segs with
  | nil =>
    intro n params
    simp only [Router.findSegs, walkSegs]
    cases hg : getA n.handlers (upStr m) with
    | some hs =>
      refine ⟨fun e he => absurd he (by simp), ?_⟩
      constructor
      · intro ⟨e, he⟩
        exact absurd he (by simp)
      · intro h
        rcases h with h | ⟨nf, hnf, hh⟩
        · exact absurd h (by simp)
        · injection hnf with hnf1
          rw [← hnf1] at hh
          rw [hg] at hh
          exact absurd hh (by simp)
    | none =>
      refine ⟨fun e he => by injection he with he1; rw [← he1], ?_⟩
      constructor
      · intro _
        exact Or.inr ⟨n, rfl, hg⟩
      · intro _
        exact ⟨⟨404, "Route not found", none⟩, rfl⟩
  | cons seg rest ih =>
    intro n params
    by_cases hse : seg = ""
    · simp only [Router.findSegs, walkSegs, if_pos hse]
      exact ih n params
    · simp only [Router.findSegs, walkSegs, if_neg hse]
      cases hg : getA n.children seg with
      | some c =>
        exact ih c params
      | none =>
        cases hp : getA n.children ":" with
        | some c =>
          exact ih c _
        | none =>
          refine ⟨fun e he => by injection he with he1; rw [← he1], ?_⟩
          constructor
          · intro _
            exact Or.inl rfl
          · intro _
            exact ⟨⟨404, "Route not found", none⟩, rfl⟩

/-- C8: both routing failure modes signal the same error kind with status
404 — an error from `find` is always the `HttpError` with status 404 and
message `"Route not found"` (never 405 or any other status), and `find`
fails exactly when either no trie path matches the request segments at all
(the walk reaches no node) or the walk reaches a terminal node that has no
handler chain for the uppercased method; these are the only two failure
conditions. -/
theorem find_failure_modes_404 :
    ∀ (H : Type) (root : Node H) (method path : String),
      (∀ e, Router.find root method path = .error e →
        e.status = 404 ∧ e.message = "Route not found") ∧
      ((∃ e, Router.find root method path = .error e) ↔
        walkSegs (Router.findSegments path) root = none ∨
        ∃ nf, walkSegs (Router.findSegments path) root = some nf ∧
          getA nf.handlers (upStr method) = none) := by
  intro H root method path
  obtain ⟨h1, h2⟩ := findSegs_error_iff method (Router.findSegments path) root []
  refine ⟨fun e he => ?_, h2⟩
  rw [h1 e he]
  exact ⟨rfl, rfl⟩

/-- Witness for C8: an empty router rejects `GET /missing` with exactly the
404 `"Route not found"` error. -/
theorem find_failure_modes_404_witness :
    (Router.find (Node.empty : Node Nat) "GET" "/missing" =
      .error ⟨404, "Route not found", none⟩) ∧
    ((⟨404, "Route not found", none⟩ : HttpError).status = 404 ∧
      (⟨404, "Route not found", none⟩ : HttpError).message = "Route not found") :=
  ⟨by decide,
    (find_failure_modes_404 Nat Node.empty "GET" "/missing").1 _ (by decide)⟩

theorem node_ind {H : Type} (P : Node H → Prop)
    (step : ∀ (ch : List (String × Node H)) (hs : List (String × List H))
      (pn : Option String) (ip : Bool),
      (∀ p ∈ ch, P p.2) → P (Node.mk ch hs pn ip)) :
    ∀ n : Node H, P n
  | Node.mk ch hs pn ip =>
    step ch hs pn ip (fun p hp => node_ind P step p.2)
termination_by n => sizeOf n
decreasing_by
  have h1 : sizeOf p < sizeOf ch := List.sizeOf_lt_of_mem hp
  obtain ⟨a, b⟩ := p
  simp only [Node.mk.sizeOf_spec, Prod.mk.sizeOf_spec] at h1 ⊢
  omega

theorem traverseRoutes_unfold {H : Type} (ch : List (String × Node H))
    (hs : List (String × List H)) (pn : Option String) (ip : Bool)
    (path : String) :
    Router.traverseRoutes (Node.mk ch hs pn ip) path =
      hs.map (fun p => (p.1, if path = "" then "/" else path)) ++
        (ch.map (fun x =>
          Router.traverseRoutes x.2 (path ++ "/" ++ Router.renderSeg x.1 x.2))).flatten := by
  rw [Router.traverseRoutes]
  congr 1
  rw [List.attach_map_val ch
    (fun x => Router.traverseRoutes x.2 (path ++ "/" ++ Router.renderSeg x.1 x.2))]

theorem routesSegs_unfold {H : Type} (ch : List (String × Node H))
    (hs : List (String × List H)) (pn : Option String) (ip : Bool) :
    routesSegs (Node.mk ch hs pn ip) =
      hs.map (fun p => (p.1, [], p.2)) ++
        (ch.map (fun x =>
          (routesSegs x.2).map (fun t =>
            (t.1, Router.renderSeg x.1 x.2 :: t.2.1, t.2.2)))).flatten := by
  rw [routesSegs]
  simp only [Node.children, Node.handlers]
  congr 1
  rw [List.attach_map_val ch
    (fun x => (routesSegs x.2).map (fun t =>
      (t.1, Router.renderSeg x.1 x.2 :: t.2.1, t.2.2)))]

theorem splitL_ne_nil (sep : Char) : ∀ l : List Char, splitL sep l ≠ [] := by
  intro l
  cases l with
  | nil => simp [splitL]
  | cons c cs =>
    simp only [splitL]
    cases splitL sep cs with
    | nil => simp
    | cons h t =>
      by_cases hc : c = sep <;> simp [hc]

theorem splitL_sep_free (sep : Char) : ∀ l : List Char, sep ∉ l →
    splitL sep l = [l] := by
  intro l
  induction l with
  | nil => intro _; rfl
  | cons c cs ih =>
    intro h
    simp only [List.mem_cons] at h
    push_neg at h
    simp only [splitL, ih h.2]
    rw [if_neg (Ne.symm h.1)]

theorem splitL_cons_sep (sep : Char) (l : List Char) :
    splitL sep (sep :: l) = [] :: splitL sep l := by
  simp only [splitL]
  cases hs : splitL sep l with
  | nil => exact absurd hs (splitL_ne_nil sep l)
  | cons h t => simp

theorem splitL_append_sep (sep : Char) : ∀ (xs ys : List Char), sep ∉ xs →
    splitL sep (xs ++ sep :: ys) = xs :: splitL sep ys := by
  intro xs
  induction xs with
  | nil =>
    intro ys _
    simpa using splitL_cons_sep sep ys
  | cons c cs ih =>
    intro ys h
    simp only [List.mem_cons] at h
    push_neg at h
    simp only [List.cons_append, splitL, List.append_eq]
    rw [ih ys h.2]
    show (if c = sep then [] :: cs :: splitL sep ys
      else (c :: cs) :: splitL sep ys) = (c :: cs) :: splitL sep ys
    rw [if_neg (Ne.symm h.1)]

theorem splitL_flatMap : ∀ segs : List String, (∀ s ∈ segs, '/' ∉ s.data) →
    splitL '/' (segs.flatMap (fun s => '/' :: s.data)) =
      [] :: segs.map String.data := by
  intro segs
  induction segs with
  | nil => intro _; rfl
  | cons s t ih =>
    intro h
    have hs : '/' ∉ s.data := (h s (by simp))
    have ht : ∀ u ∈ t, '/' ∉ u.data := fun u hu => h u (by simp [hu])
    simp only [List.flatMap_cons, List.cons_append, splitL_cons_sep]
    cases t with
    | nil =>
      simp only [List.flatMap_nil, List.append_nil]
      rw [splitL_sep_free '/' s.data hs]
      rfl
    | cons s2 t2 =>
      have ih2 := ih ht
      simp only [List.flatMap_cons, List.cons_append, splitL_cons_sep] at ih2
      injection ih2 with _ ih3
      simp only [List.flatMap_cons, List.cons_append]
      rw [splitL_append_sep '/' s.data _ hs, ih3]
      rfl

theorem splitL_chunks_no_sep (sep : Char) : ∀ l : List Char,
    ∀ chunk ∈ splitL sep l, sep ∉ chunk := by
  intro l
  induction l with
  | nil =>
    intro chunk hc
    simp only [splitL, List.mem_singleton] at hc
    simp [hc]
  | cons c cs ih =>
    intro chunk hc
    simp only [splitL] at hc
    cases hs : splitL sep cs with
    | nil => exact absurd hs (splitL_ne_nil sep cs)
    | cons h t =>
      rw [hs] at hc
      by_cases hcs : c = sep
      · simp only [if_pos hcs, List.mem_cons] at hc
        rcases hc with hc | hc | hc
        · simp [hc]
        · exact ih chunk (by rw [hs]; simp [hc])
        · exact ih chunk (by rw [hs]; simp [hc])
      · simp only [if_neg hcs, List.mem_cons] at hc
        rcases hc with hc | hc
        · subst hc
          simp only [List.mem_cons]
          push_neg
          refine ⟨fun he => hcs he.symm, ?_⟩
          have := ih h (by rw [hs]; simp)
          intro hm
          exact this hm
        · exact ih chunk (by rw [hs]; simp [hc])

theorem splitL_chunks_subset (sep : Char) : ∀ l : List Char,
    ∀ chunk ∈ splitL sep l, ∀ c ∈ chunk, c ∈ l := by
  intro l
  induction l with
  | nil =>
    intro chunk hc
    simp only [splitL, List.mem_singleton] at hc
    simp [hc]
  | cons a cs ih =>
    intro chunk hc c hcc
    simp only [splitL] at hc
    cases hs : splitL sep cs with
    | nil => exact absurd hs (splitL_ne_nil sep cs)
    | cons h t =>
      rw [hs] at hc
      by_cases has : a = sep
      · simp only [if_pos has, List.mem_cons] at hc
        rcases hc with hc | hc | hc
        · subst hc; simp at hcc
        · exact List.mem_cons.mpr (Or.inr (ih chunk (by rw [hs]; simp [hc]) c hcc))
        · exact List.mem_cons.mpr (Or.inr (ih chunk (by rw [hs]; simp [hc]) c hcc))
      · simp only [if_neg has, List.mem_cons] at hc
        rcases hc with hc | hc
        · subst hc
          rcases List.mem_cons.mp hcc with hcc | hcc
          · exact List.mem_cons.mpr (Or.inl hcc)
          · exact List.mem_cons.mpr (Or.inr (ih h (by rw [hs]; simp) c hcc))
        · exact List.mem_cons.mpr (Or.inr (ih chunk (by rw [hs]; simp [hc]) c hcc))

theorem renderPathSegs_foldl_data : ∀ (segs : List String) (a : String),
    (segs.foldl (fun acc s => acc ++ "/" ++ s) a).data =
      a.data ++ segs.flatMap (fun s => '/' :: s.data) := by
  intro segs
  induction segs with
  | nil => intro a; simp
  | cons s t ih =>
    intro a
    simp only [List.foldl_cons, List.flatMap_cons]
    rw [ih (a ++ "/" ++ s)]
    simp [String.data_append]

theorem beforeChar_no_sep (sep : Char) (s : String) (h : sep ∉ s.data) :
    beforeChar sep s = s := by
  unfold beforeChar
  have h2 : s.data.takeWhile (fun c => c ≠ sep) = s.data := by
    have h3 := takeWhile_true_append (fun c => c ≠ sep) s.data []
      (fun c hc => by
        have hne : c ≠ sep := fun he => h (he ▸ hc)
        simpa using hne)
      (Or.inl rfl)
    simpa using h3
  show String.mk (s.data.takeWhile (fun c => c ≠ sep)) = s
  rw [h2]

theorem mk_data (s : String) : String.mk s.data = s := rfl

theorem str_empty_of_data_nil (s : String) (h : s.data = []) : s = "" := by
  cases s with
  | mk d =>
    simp only at h
    rw [h]

theorem findSegments_renderPath (segs : List String)
    (hprops : ∀ s ∈ segs, s ≠ "" ∧ '/' ∉ s.data ∧ '?' ∉ s.data) :
    Router.findSegments (renderPath segs) = segs := by
  cases segs with
  | nil => decide
  | cons s1 t1 =>
    have hdata : (renderPathSegs (s1 :: t1)).data =
        (s1 :: t1).flatMap (fun s => '/' :: s.data) := by
      have h0 := renderPathSegs_foldl_data (s1 :: t1) ""
      simpa [renderPathSegs] using h0
    have hne : renderPathSegs (s1 :: t1) ≠ "" := by
      intro he
      have hd : (renderPathSegs (s1 :: t1)).data = [] := by rw [he]
      rw [hdata] at hd
      simp [List.flatMap_cons] at hd
    have hrp : renderPath (s1 :: t1) = renderPathSegs (s1 :: t1) := by
      unfold renderPath
      rw [if_neg hne]
    have hnq : '?' ∉ (renderPathSegs (s1 :: t1)).data := by
      rw [hdata]
      intro hmem
      simp only [List.mem_flatMap] at hmem
      obtain ⟨s, hsm, hcm⟩ := hmem
      rcases List.mem_cons.mp hcm with hc | hc
      · exact absurd hc (by decide)
      · exact (hprops s hsm).2.2 hc
    have hclean : Router.cleanPath (renderPath (s1 :: t1)) =
        renderPathSegs (s1 :: t1) := by
      unfold Router.cleanPath
      rw [hrp, beforeChar_no_sep '?' _ hnq]
      simp only [if_neg hne]
    have hns : renderPathSegs (s1 :: t1) ≠ "/" := by
      intro he
      have hd : (renderPathSegs (s1 :: t1)).data = ['/'] := by rw [he]
      rw [hdata] at hd
      simp only [List.flatMap_cons, List.cons_append] at hd
      injection hd with _ hd2
      have hs1 : s1.data = [] := by
        cases hsd : s1.data with
        | nil => rfl
        | cons a b =>
          rw [hsd] at hd2
          simp at hd2
      exact (hprops s1 (by simp)).1 (str_empty_of_data_nil s1 hs1)
    have hsplit : splitChar '/' (renderPathSegs (s1 :: t1)) = "" :: s1 :: t1 := by
      unfold splitChar
      rw [hdata]
      rw [splitL_flatMap (s1 :: t1) (fun s hsm => (hprops s hsm).2.1)]
      simp only [List.map_cons, List.map_map]
      refine congrArg (List.cons "") ?_
      refine congrArg (List.cons s1) ?_
      exact Eq.trans (List.map_congr_left (fun a _ => mk_data a)) (List.map_id t1)
    simp only [Router.findSegments]
    rw [hclean, if_neg hns, hsplit]
    rw [List.filter_cons]
    simp only [decide_not]
    have hall : List.filter (fun s => !(s == "")) (s1 :: t1) = s1 :: t1 := by
      rw [List.filter_eq_self]
      intro a ha
      simpa using (hprops a ha).1
    simpa using hall

theorem getA_mem {α : Type} : ∀ (l : List (String × α)) (k : String) (v : α),
    getA l k = some v → (k, v) ∈ l := by
  intro l
  induction l with
  | nil =>
    intro k v h
    simp [getA] at h
  | cons p rest ih =>
    intro k v h
    obtain ⟨k0, v0⟩ := p
    by_cases hk : k0 = k
    · subst hk
      simp only [getA, if_true, eq_self_iff_true, Option.some.injEq] at h
      subst h
      simp
    · simp only [getA, if_neg hk] at h
      exact List.mem_cons.mpr (Or.inr (ih k v h))

theorem addSegments_props (path : String) (h : '?' ∉ path.data) :
    ∀ s ∈ Router.addSegments path, s ≠ "" ∧ '/' ∉ s.data ∧ '?' ∉ s.data := by
  intro s hs
  simp only [Router.addSegments, List.mem_filter] at hs
  obtain ⟨hmem, hne⟩ := hs
  simp only [splitChar, List.mem_map] at hmem
  obtain ⟨chunk, hchunk, hmk⟩ := hmem
  refine ⟨by simpa using hne, ?_, ?_⟩
  · rw [← hmk]
    exact splitL_chunks_no_sep '/' path.data chunk hchunk
  · rw [← hmk]
    intro hq
    exact h (splitL_chunks_subset '/' path.data chunk hchunk '?' hq)

theorem not_mem_tail {c : Char} {l : List Char} (h : c ∉ l) : c ∉ l.tail := by
  cases l with
  | nil => simp
  | cons a t =>
    simp only [List.tail_cons]
    intro hm
    exact h (List.mem_cons.mpr (Or.inr hm))

theorem startsColon_false_head (s : String) (h : startsColon s = false) :
    s.data.head? ≠ some ':' := by
  unfold startsColon at h
  cases hd : s.data with
  | nil => simp
  | cons c t =>
    rw [hd] at h
    simp only [decide_eq_false_iff_not] at h
    simp [h]

theorem startsColon_true_of_colon (s : String) (h : s = ":") :
    startsColon s = true := by
  rw [h]
  decide

theorem wfN_leaf {H : Type} (pn : Option String) (ip : Bool) :
    WfN (Node.mk ([] : List (String × Node H)) [] pn ip) := by
  refine WfN.mk [] [] pn ip ?_ ?_ ?_ ?_ ?_ ?_ ?_ <;> simp [keysA]

theorem wfN_empty {H : Type} : WfN (Node.empty : Node H) :=
  wfN_leaf none false

theorem addSegs_cons_param_some {H : Type} (method : String) (hs : List H)
    (seg : String) (rest : List String) (ch : List (String × Node H))
    (hsl : List (String × List H)) (pn : Option String) (ip : Bool) (c : Node H)
    (hcolon : startsColon seg = true) (hg : getA ch ":" = some c) :
    Router.addSegs method hs (seg :: rest) (Node.mk ch hsl pn ip) =
      Node.mk (setA ch ":" (Router.addSegs method hs rest c)) hsl pn ip := by
  simp only [Router.addSegs, Node.children, Node.handlers, Node.paramName,
    Node.isParam, hcolon, if_true, hg]

theorem addSegs_cons_param_none {H : Type} (method : String) (hs : List H)
    (seg : String) (rest : List String) (ch : List (String × Node H))
    (hsl : List (String × List H)) (pn : Option String) (ip : Bool)
    (hcolon : startsColon seg = true) (hg : getA ch ":" = none) :
    Router.addSegs method hs (seg :: rest) (Node.mk ch hsl pn ip) =
      Node.mk (setA ch ":" (Router.addSegs method hs rest
        (Node.mk [] [] (some (dropFirst seg)) true))) hsl pn ip := by
  simp only [Router.addSegs, Node.children, Node.handlers, Node.paramName,
    Node.isParam, hcolon, if_true, hg]

theorem addSegs_cons_lit_some {H : Type} (method : String) (hs : List H)
    (seg : String) (rest : List String) (ch : List (String × Node H))
    (hsl : List (String × List H)) (pn : Option String) (ip : Bool) (c : Node H)
    (hcolon : startsColon seg = false) (hg : getA ch seg = some c) :
    Router.addSegs method hs (seg :: rest) (Node.mk ch hsl pn ip) =
      Node.mk (setA ch seg (Router.addSegs method hs rest c)) hsl pn ip := by
  simp only [Router.addSegs, Node.children, Node.handlers, Node.paramName,
    Node.isParam, hcolon, Bool.false_eq_true, if_false, hg]

theorem addSegs_cons_lit_none {H : Type} (method : String) (hs : List H)
    (seg : String) (rest : List String) (ch : List (String × Node H))
    (hsl : List (String × List H)) (pn : Option String) (ip : Bool)
    (hcolon : startsColon seg = false) (hg : getA ch seg = none) :
    Router.addSegs method hs (seg :: rest) (Node.mk ch hsl pn ip) =
      Node.mk (setA ch seg (Router.addSegs method hs rest Node.empty)) hsl pn ip := by
  simp only [Router.addSegs, Node.children, Node.handlers, Node.paramName,
    Node.isParam, hcolon, Bool.false_eq_true, if_false, hg]

theorem wfN_set_child {H : Type} (ch : List (String × Node H))
    (hsl : List (String × List H)) (pn : Option String) (ip : Bool)
    (k : String) (c1 : Node H)
    (hwf : WfN (Node.mk ch hsl pn ip))
    (hkeyOk : k ≠ "" ∧ '/' ∉ k.data ∧ '?' ∉ k.data)
    (hparamOk : k = ":" → ∃ pname, c1.paramName = some pname ∧
      '/' ∉ pname.data ∧ '?' ∉ pname.data)
    (hlitOk : k ≠ ":" → k.data.head? ≠ some ':')
    (hc1 : WfN c1) :
    WfN (Node.mk (setA ch k c1) hsl pn ip) := by
  cases hwf with
  | mk _ _ _ _ hnodupC hnodupH hmeth hkeys hparam hlit hwfc =>
    refine WfN.mk _ _ _ _ (nodup_keysA_setA _ _ _ hnodupC) hnodupH hmeth ?_ ?_ ?_ ?_
    · intro p hp
      rcases mem_setA _ _ _ p hp with he | he
      · rw [he]
        exact hkeyOk
      · exact hkeys p he
    · intro p hp hpk
      rcases mem_setA _ _ _ p hp with he | he
      · rw [he] at hpk ⊢
        exact hparamOk hpk
      · exact hparam p he hpk
    · intro p hp hpk
      rcases mem_setA _ _ _ p hp with he | he
      · rw [he] at hpk ⊢
        exact hlitOk hpk
      · exact hlit p he hpk
    · intro p hp
      rcases mem_setA _ _ _ p hp with he | he
      · rw [he]
        exact hc1
      · exact hwfc p he

theorem wfN_addSegs {H : Type} (method : String) (hs : List H) :
    ∀ (segs : List String) (n : Node H),
      (∀ s ∈ segs, s ≠ "" ∧ '/' ∉ s.data ∧ '?' ∉ s.data) →
      WfN n → WfN (Router.addSegs method hs segs n) := by
  intro segs
  induction segs with
  | nil =>
    intro n hsegs hwf
    cases hwf with
    | mk ch hsl pn ip hnodupC hnodupH hmeth hkeys hparam hlit hwfc =>
      refine WfN.mk ch (setA hsl (upStr method) hs) pn ip hnodupC
        (nodup_keysA_setA _ _ _ hnodupH) ?_ hkeys hparam hlit hwfc
      intro p hp
      rcases mem_setA _ _ _ p hp with he | he
      · rw [he]
        simpa using upStr_idem method
      · exact hmeth p he
  | cons seg rest ih =>
    intro n hsegs hwf
    have hseg := hsegs seg (by simp)
    have hrest : ∀ s ∈ rest, s ≠ "" ∧ '/' ∉ s.data ∧ '?' ∉ s.data :=
      fun s hsm => hsegs s (by simp [hsm])
    cases hwf with
    | mk ch hsl pn ip hnodupC hnodupH hmeth hkeys hparam hlit hwfc =>
      have hwfn : WfN (Node.mk ch hsl pn ip) :=
        WfN.mk ch hsl pn ip hnodupC hnodupH hmeth hkeys hparam hlit hwfc
      by_cases hcolon : startsColon seg = true
      · cases hg : getA ch ":" with
        | some c =>
          rw [addSegs_cons_param_some method hs seg rest ch hsl pn ip c hcolon hg]
          have hmemc : (":", c) ∈ ch := getA_mem ch ":" c hg
          refine wfN_set_child ch hsl pn ip ":" _ hwfn (by decide) ?_
            (fun hk => absurd rfl hk) (ih c hrest (hwfc (":", c) hmemc))
          intro _
          obtain ⟨pname, hpn, hsl2, hq2⟩ := hparam (":", c) hmemc rfl
          exact ⟨pname, by rw [addSegs_paramName]; exact hpn, hsl2, hq2⟩
        | none =>
          rw [addSegs_cons_param_none method hs seg rest ch hsl pn ip hcolon hg]
          refine wfN_set_child ch hsl pn ip ":" _ hwfn (by decide) ?_
            (fun hk => absurd rfl hk)
            (ih (Node.mk [] [] (some (dropFirst seg)) true) hrest
              (wfN_leaf (some (dropFirst seg)) true))
          intro _
          refine ⟨dropFirst seg, by rw [addSegs_paramName]; rfl, ?_, ?_⟩
          · exact not_mem_tail hseg.2.1
          · exact not_mem_tail hseg.2.2
      · have hcolon2 : startsColon seg = false := by
          cases hsc : startsColon seg with
          | true => exact absurd hsc hcolon
          | false => rfl
        have hkne : seg ≠ ":" :=
          fun he => absurd (startsColon_true_of_colon seg he)
            (by rw [hcolon2]; simp)
        cases hg : getA ch seg with
        | some c =>
          rw [addSegs_cons_lit_some method hs seg rest ch hsl pn ip c hcolon2 hg]
          have hmemc : (seg, c) ∈ ch := getA_mem ch seg c hg
          exact wfN_set_child ch hsl pn ip seg _ hwfn hseg
            (fun hk => absurd hk hkne)
            (fun _ => startsColon_false_head seg hcolon2)
            (ih c hrest (hwfc (seg, c) hmemc))
        | none =>
          rw [addSegs_cons_lit_none method hs seg rest ch hsl pn ip hcolon2 hg]
          exact wfN_set_child ch hsl pn ip seg _ hwfn hseg
            (fun hk => absurd hk hkne)
            (fun _ => startsColon_false_head seg hcolon2)
            (ih Node.empty hrest wfN_empty)

theorem wfN_add {H : Type} (method path : String) (hs : List H) (r : Node H)
    (hq : '?' ∉ path.data) (hwf : WfN r) : WfN (Router.add method path hs r) :=
  wfN_addSegs method hs (Router.addSegments path) r (addSegments_props path hq) hwf

theorem wfN_buildRouter {H : Type} (adds : List (String × String × List H))
    (h : ∀ a ∈ adds, '?' ∉ a.2.1.data) : WfN (buildRouter adds) := by
  suffices hgen : ∀ (l : List (String × String × List H)) (r : Node H),
      (∀ a ∈ l, '?' ∉ a.2.1.data) → WfN r →
      WfN (l.foldl (fun r a => Router.add a.1 a.2.1 a.2.2 r) r) by
    exact hgen adds Node.empty h wfN_empty
  intro l
  induction l with
  | nil =>
    intro r _ hwf
    exact hwf
  | cons a t ih =>
    intro r hl hwf
    simp only [List.foldl_cons]
    exact ih _ (fun b hb => hl b (by simp [hb]))
      (wfN_add a.1 a.2.1 a.2.2 r (hl a (by simp)) hwf)

theorem renderSeg_lit {H : Type} (k : String) (c : Node H) (hke : k ≠ ":") :
    Router.renderSeg k c = k := by
  unfold Router.renderSeg
  rw [if_neg hke]

theorem renderSeg_param_empty {H : Type} (c : Node H) (pname : String)
    (hpn : c.paramName = some pname) (hpe : pname = "") :
    Router.renderSeg ":" c = ":" := by
  unfold Router.renderSeg
  rw [if_pos rfl, hpn]
  show (if pname = "" then ":" else ":" ++ pname) = ":"
  rw [if_pos hpe]

theorem renderSeg_param {H : Type} (c : Node H) (pname : String)
    (hpn : c.paramName = some pname) (hpe : pname ≠ "") :
    Router.renderSeg ":" c = ":" ++ pname := by
  unfold Router.renderSeg
  rw [if_pos rfl, hpn]
  show (if pname = "" then ":" else ":" ++ pname) = ":" ++ pname
  rw [if_neg hpe]

theorem renderSeg_props {H : Type} (k : String) (c : Node H)
    (hk : k ≠ "" ∧ '/' ∉ k.data ∧ '?' ∉ k.data)
    (hp : k = ":" → ∃ pname, c.paramName = some pname ∧
      '/' ∉ pname.data ∧ '?' ∉ pname.data) :
    Router.renderSeg k c ≠ "" ∧ '/' ∉ (Router.renderSeg k c).data ∧
      '?' ∉ (Router.renderSeg k c).data := by
  by_cases hke : k = ":"
  · obtain ⟨pname, hpn, hsl2, hq2⟩ := hp hke
    subst hke
    by_cases hpe : pname = ""
    · rw [renderSeg_param_empty c pname hpn hpe]
      exact ⟨by decide, by decide, by decide⟩
    · rw [renderSeg_param c pname hpn hpe]
      refine ⟨?_, ?_, ?_⟩
      · intro he
        have hd := congrArg String.data he
        rw [String.data_append] at hd
        simp at hd
      · rw [String.data_append]
        intro hm
        rcases List.mem_append.mp hm with hm | hm
        · exact absurd hm (by decide)
        · exact hsl2 hm
      · rw [String.data_append]
        intro hm
        rcases List.mem_append.mp hm with hm | hm
        · exact absurd hm (by decide)
        · exact hq2 hm
  · rw [renderSeg_lit k c hke]
    exact hk

theorem routesSegs_seg_props {H : Type} :
    ∀ n : Node H, WfN n → ∀ t ∈ routesSegs n, ∀ s ∈ t.2.1,
      s ≠ "" ∧ '/' ∉ s.data ∧ '?' ∉ s.data := by
  intro n
  induction n using node_ind with
  | step ch hsl pn ip ihc =>
    intro hwf t ht s hsm
    cases hwf with
    | mk _ _ _ _ hnodupC hnodupH hmeth hkeys hparam hlit hwfc =>
      rw [routesSegs_unfold] at ht
      rcases List.mem_append.mp ht with ht | ht
      · obtain ⟨p, hp, he⟩ := List.mem_map.mp ht
        rw [← he] at hsm
        simp at hsm
      · obtain ⟨l, hl, htl⟩ := List.mem_flatten.mp ht
        obtain ⟨x, hx, hle⟩ := List.mem_map.mp hl
        rw [← hle] at htl
        obtain ⟨t0, ht0, hte⟩ := List.mem_map.mp htl
        rw [← hte] at hsm
        simp only [List.mem_cons] at hsm
        rcases hsm with hsm | hsm
        · rw [hsm]
          exact renderSeg_props x.1 x.2 (hkeys x hx) (fun hke => hparam x hx hke)
        · exact ihc x hx (hwfc x hx) t0 ht0 s hsm

theorem routesSegs_find {H : Type} :
    ∀ n : Node H, WfN n → ∀ t ∈ routesSegs n, ∀ params : List (String × String),
      ∃ ps, Router.findSegs t.1 t.2.1 n params = .ok ⟨t.2.2, ps⟩ := by
  intro n
  induction n using node_ind with
  | step ch hsl pn ip ihc =>
    intro hwf t ht params
    cases hwf with
    | mk _ _ _ _ hnodupC hnodupH hmeth hkeys hparam hlit hwfc =>
      rw [routesSegs_unfold] at ht
      rcases List.mem_append.mp ht with ht | ht
      · obtain ⟨p, hp, he⟩ := List.mem_map.mp ht
        obtain ⟨m, chain⟩ := p
        refine ⟨params, ?_⟩
        rw [← he]
        simp only [Router.findSegs, Node.handlers]
        rw [hmeth (m, chain) hp]
        rw [getA_eq_some_of_mem_nodup hsl m chain hnodupH hp]
      · obtain ⟨l, hl, htl⟩ := List.mem_flatten.mp ht
        obtain ⟨x, hx, hle⟩ := List.mem_map.mp hl
        rw [← hle] at htl
        obtain ⟨t0, ht0, hte⟩ := List.mem_map.mp htl
        obtain ⟨k, c⟩ := x
        rw [← hte]
        have hkp := hkeys (k, c) hx
        have hgc0 : getA ch k = some c := getA_eq_some_of_mem_nodup ch k c hnodupC hx
        by_cases hke : k = ":"
        · obtain ⟨pname, hpn, hsl2, hq2⟩ := hparam (k, c) hx hke
          subst hke
          by_cases hpe : pname = ""
          · rw [renderSeg_param_empty c pname hpn hpe]
            rw [findSegs_literal_step (Node.mk ch hsl pn ip) c ":" t0.2.1 params t0.1
              (by decide) hgc0]
            exact ihc (":", c) hx (hwfc (":", c) hx) t0 ht0 params
          · rw [renderSeg_param c pname hpn hpe]
            have hlitfail : getA ch (":" ++ pname) = none := by
              apply getA_eq_none
              intro p hp
              by_cases hpk : p.1 = ":"
              · rw [hpk]
                intro he
                have hd := congrArg String.data he
                rw [String.data_append] at hd
                have hd2 : pname.data = [] := by
                  have := hd.symm
                  simpa using this
                exact hpe (str_empty_of_data_nil pname hd2)
              · intro he
                have hh := hlit p hp hpk
                rw [he] at hh
                apply hh
                rw [String.data_append]
                rfl
            have hne : (":" ++ pname) ≠ "" := by
              intro he
              have hd := congrArg String.data he
              rw [String.data_append] at hd
              simp at hd
            rw [findSegs_param_step (Node.mk ch hsl pn ip) c (":" ++ pname) t0.2.1
              params t0.1 hne hlitfail hgc0]
            exact ihc (":", c) hx (hwfc (":", c) hx) t0 ht0 _
        · rw [renderSeg_lit k c hke]
          rw [findSegs_literal_step (Node.mk ch hsl pn ip) c k t0.2.1 params t0.1
            hkp.1 hgc0]
          exact ihc (k, c) hx (hwfc (k, c) hx) t0 ht0 params

theorem traverseRoutes_routesSegs {H : Type} :
    ∀ (n : Node H) (path : String),
      Router.traverseRoutes n path =
        (routesSegs n).map (fun t =>
          (t.1, if (t.2.1.foldl (fun acc s => acc ++ "/" ++ s) path) = "" then "/"
            else t.2.1.foldl (fun acc s => acc ++ "/" ++ s) path)) := by
  intro n
  induction n using node_ind with
  | step ch hsl pn ip ihc =>
    intro path
    rw [traverseRoutes_unfold, routesSegs_unfold]
    rw [List.map_append]
    congr 1
    · rw [List.map_map]
      rfl
    · rw [List.map_flatten, List.map_map]
      congr 1
      refine List.map_congr_left (fun x hx => ?_)
      simp only [Function.comp_apply]
      rw [ihc x hx, List.map_map]
      refine List.map_congr_left (fun t _ => ?_)
      rfl

theorem routesSegs_roundtrip {H : Type} (root : Node H) (hwf : WfN root) :
    ∀ t ∈ routesSegs root, ∃ ps,
      Router.find root t.1 (renderPath t.2.1) = .ok ⟨t.2.2, ps⟩ := by
  intro t ht
  have hprops := routesSegs_seg_props root hwf t ht
  have hpars := findSegments_renderPath t.2.1 hprops
  obtain ⟨ps, hps⟩ := routesSegs_find root hwf t ht []
  refine ⟨ps, ?_⟩
  unfold Router.find
  rw [hpars]
  exact hps

theorem listRoutes_eq_routesSegs {H : Type} (root : Node H) :
    Router.listRoutes root =
      (routesSegs root).map (fun t => (t.1, renderPath t.2.1)) := by
  unfold Router.listRoutes
  rw [traverseRoutes_routesSegs root ""]
  refine List.map_congr_left (fun t _ => ?_)
  rfl

/-- Counterexample to C10 as stated: after `add("GET", "/a?b", h)` — a router
built solely through `add` calls — `listRoutes()` produces the pair
`(GET, /a?b)`, but `find("GET", "/a?b")` throws 404, because `find`
truncates its path argument at the first `?` and then looks up the segment
`a` which was never registered. -/
theorem listRoutes_question_mark_not_resolvable :
    Router.listRoutes demoQRouter = [("GET", "/a?b")] ∧
    Router.find demoQRouter "GET" "/a?b" =
      .error ⟨404, "Route not found", none⟩ := by
  constructor
  · have hq : demoQRouter =
        Node.mk [("a?b", Node.mk [] [("GET", [1])] none false)] [] none false := rfl
    rw [Router.listRoutes, hq]
    rw [traverseRoutes_unfold]
    simp only [List.map_nil, List.map_cons, traverseRoutes_unfold]
    decide
  · decide

/-- C10 (amended): for every router built solely through `add` calls whose
paths contain no `?`, the `listRoutes`/`find` round trip holds —
`listRoutes()` is exactly the instrumented route traversal with each
parameter segment rendered as `:name`, and every emitted route is
re-resolvable: `find(method, renderedPath)` succeeds and returns exactly the
handler chain stored for that route (each `:name` segment resolving through
the parameter child). A registered path containing a literal `?` breaks the
round trip, because `find` truncates its path at the first `?`. -/
theorem listRoutes_find_roundtrip :
    ∀ (adds : List (String × String × List Nat)),
      (∀ a ∈ adds, '?' ∉ a.2.1.data) →
      Router.listRoutes (buildRouter adds) =
        (routesSegs (buildRouter adds)).map (fun t => (t.1, renderPath t.2.1)) ∧
      (∀ t ∈ routesSegs (buildRouter adds),
        ∃ ps, Router.find (buildRouter adds) t.1 (renderPath t.2.1) =
          .ok ⟨t.2.2, ps⟩) := by
  intro adds hq
  have hwf := wfN_buildRouter adds hq
  exact ⟨listRoutes_eq_routesSegs _, routesSegs_roundtrip _ hwf⟩

/-- Witness for C10 (amended) on a one-route router with a parameter
segment. -/
theorem listRoutes_find_roundtrip_witness :
    (∀ a ∈ ([("GET", "/users/:id", [3])] : List (String × String × List Nat)),
      '?' ∉ a.2.1.data) ∧
    (Router.listRoutes (buildRouter [("GET", "/users/:id", [3])]) =
      (routesSegs (buildRouter [("GET", "/users/:id", [3])])).map
        (fun t => (t.1, renderPath t.2.1)) ∧
      (∀ t ∈ routesSegs (buildRouter [("GET", "/users/:id", [3])]),
        ∃ ps, Router.find (buildRouter [("GET", "/users/:id", [3])]) t.1
          (renderPath t.2.1) = .ok ⟨t.2.2, ps⟩)) :=
  ⟨by decide, listRoutes_find_roundtrip [("GET", "/users/:id", [3])] (by decide)⟩
